import Mathlib

/-!
Shallow embedding of `tensorflow/core/data/service/snapshot/snapshot_stream_writer.cc`.

The C++ writer runs one background task that drains a cursor (`TaskIterator`)
and persists its elements into size-bounded chunk files, committing each chunk
by an atomic rename from an uncommitted directory into a committed directory.
The externally supplied collaborators (the cursor, the `TFRecordWriter` sink,
the filesystem `Env`) are modelled by a script of pull results and by
status-valued oracle functions giving each external operation's outcome.

The background execution is embedded as a pure interpreter that mirrors the
source functions one-to-one (`ShouldWriteChunk`, `WriteChunk`,
`ShouldWriteRecord`, `WriteRecord`, `CommitChunk`, `WriteSnapshotFn`, the
snapshot-thread body, `Wait`, `Cancel`, `status`).  The interpreter also emits
an event trace recording every external call with its result, plus
acquisitions and releases of the single mutex `mu_` inside the effectful
functions, so that temporal and locking properties can be stated over traces.
The guard functions `ShouldWriteChunk` / `ShouldWriteRecord` and
`GetChunkFilePath` also take `mu_` around pure field reads in the source;
those scopes contain no external call and are not materialised in the trace.

The outer chunk loop of `WriteSnapshotFn` can iterate forever (e.g. with
`max_chunk_size_bytes = 0` and a cursor that never ends), so the embedded
loop takes a fuel argument; exhausting the fuel yields a distinguished model
error, which never occurs when the fuel exceeds the number of chunks written.
-/

/-- Result statuses of the tsl `Status` type as used by the writer: `ok`, or an
error carrying a message (the distinctions between error codes other than the
message are immaterial here). -/
inductive Status where
  | ok : Status
  | error (msg : String) : Status
deriving DecidableEq

/-- Mirrors `Status::ok()`. -/
@[reducible] def Status.isOk : Status → Bool
  | Status.ok => true
  | Status.error _ => false

/-- One outcome of `iterator_->GetNext(element, end_of_sequence)`: an element
(represented by its `EstimatedSizeBytes`), the end-of-sequence signal, or a
retrieval failure. -/
inductive PullResult where
  | element (sizeBytes : Nat) : PullResult
  | endOfSequence : PullResult
  | failure (msg : String) : PullResult
deriving DecidableEq

/-- Observable events of one run of the background task.  Each external call
is recorded with its result; `lockAcquire` / `lockRelease` record the mutex
scopes of the effectful functions. -/
inductive Event where
  | mkdir (result : Status) : Event
  | sinkInit (chunkIdx : Nat) (result : Status) : Event
  | pull (pullIdx : Nat) (result : PullResult) : Event
  | append (chunkIdx : Nat) (pullIdx : Nat) (sizeBytes : Nat) (preSizeBytes : Nat)
      (result : Status) : Event
  | sinkCloseEos (chunkIdx : Nat) (result : Status) : Event
  | sinkCloseCleanup (chunkIdx : Nat) (result : Status) : Event
  | renameChunk (chunkIdx : Nat) (result : Status) : Event
  | lockAcquire : Event
  | lockRelease : Event
deriving DecidableEq

/-- The four fields of the writer guarded by `mu_` (the Shared Status Cell):
`status_`, `end_of_sequence_`, `chunk_index_`, `chunk_size_bytes_`. -/
structure WriterState where
  status : Status
  end_of_sequence : Bool
  chunk_index : Nat
  chunk_size_bytes : Nat
deriving DecidableEq

/-- Full interpreter state: the guarded fields, plus bookkeeping counters for
how many `GetNext` pulls and how many sink `Close` calls have happened (used
to index the external oracles). -/
structure SimState where
  writer : WriterState
  pulls : Nat
  closes : Nat
deriving DecidableEq

/-- External collaborators and construction parameters: the outcome of each
filesystem / sink operation, and the immutable `max_chunk_size_bytes_`.
`sinkInitStatus` and `renameStatus` are indexed by chunk index,
`appendStatus` by pull index, `closeStatus` by the running count of `Close`
calls. -/
structure SimEnv where
  mkdirStatus : Status
  sinkInitStatus : Nat → Status
  appendStatus : Nat → Status
  closeStatus : Nat → Status
  renameStatus : Nat → Status
  max_chunk_size_bytes : Nat

/-- Result of one effectful source function (`WriteRecord`, `CommitChunk`). -/
structure OpResult where
  status : Status
  state : SimState
  events : List Event
deriving DecidableEq

/-- Result of a loop-shaped source function, also carrying the unconsumed
remainder of the cursor script. -/
structure StepResult where
  status : Status
  state : SimState
  events : List Event
  cursor : List PullResult
deriving DecidableEq

/-- The message of `errors::Cancelled` used by `SnapshotStreamWriter::Cancel`. -/
def cancelledMessage : String := "The tf.data service snapshot writer has been cancelled."

/-- `SnapshotStreamWriter::Cancel`: under `mu_`, unconditionally assigns
`status_ = errors::Cancelled(...)`. -/
def Cancel (w : WriterState) : WriterState :=
  { w with status := Status.error cancelledMessage }

/-- `SnapshotStreamWriter::status`: under `mu_`, returns `status_`. -/
def statusFn (w : WriterState) : Status :=
  w.status

/-- The tail of the thread body in `RunSnapshotThread`: after
`WriteSnapshotFn` returns `status`, `if (!status.ok()) status_ = status`. -/
def recordSnapshotResult (s : Status) (w : WriterState) : WriterState :=
  if s.isOk then w else { w with status := s }

/-- `kDefaultMaxChunkSizeBytes = 10 * (size_t{1} << 30)`. -/
def kDefaultMaxChunkSizeBytes : Nat := 10 * (1 <<< 30)

/-- The constructor's `max_chunk_size_bytes.has_value() ? *max_chunk_size_bytes
: kDefaultMaxChunkSizeBytes`. -/
def effectiveMaxChunkSizeBytes (requested : Option Nat) : Nat :=
  requested.getD kDefaultMaxChunkSizeBytes

/-- Path naming from the external `path_utils` collaborator:
`<snapshot_path>/streams/stream_<id>/uncommitted_chunks`. -/
def UncommittedChunksDirectory (snapshot_path : String) (stream_id : Nat) : String :=
  snapshot_path ++ "/streams/stream_" ++ toString stream_id ++ "/uncommitted_chunks"

/-- Path naming from the external `path_utils` collaborator:
`<snapshot_path>/committed_chunks`. -/
def CommittedChunksDirectory (snapshot_path : String) : String :=
  snapshot_path ++ "/committed_chunks"

/-- Chunk basename `absl::StrCat("chunk_", chunk_index_)`. -/
def chunkBasename (chunk_index : Nat) : String :=
  "chunk_" ++ toString chunk_index

/-- `SnapshotStreamWriter::GetChunkFilePath`: the uncommitted directory joined
with `chunk_<chunk_index_>` (read under `mu_`). -/
def GetChunkFilePath (snapshot_path : String) (stream_id chunk_index : Nat) : String :=
  UncommittedChunksDirectory snapshot_path stream_id ++ "/" ++ chunkBasename chunk_index

/-- `SnapshotStreamWriter::ShouldWriteChunk`: under `mu_`,
`!end_of_sequence_ && status_.ok()`. -/
def ShouldWriteChunk (w : WriterState) : Bool :=
  !w.end_of_sequence && w.status.isOk

/-- `SnapshotStreamWriter::ShouldWriteRecord`: under `mu_`,
`chunk_size_bytes_ < max_chunk_size_bytes_ && !end_of_sequence_ && status_.ok()`. -/
def ShouldWriteRecord (env : SimEnv) (w : WriterState) : Bool :=
  decide (w.chunk_size_bytes < env.max_chunk_size_bytes) && !w.end_of_sequence && w.status.isOk

/-- `SnapshotStreamWriter::WriteRecord`: under `mu_`, pull the next element via
`GetNext` (on failure, return inside the lock scope without assigning
`end_of_sequence_`), then assign `end_of_sequence_`; outside the lock, either
close the sink (end of sequence) and return the close status, or append the
element via `WriteTensors` (a failure returns its error), then under `mu_` add
`EstimatedSizeBytes(element)` to `chunk_size_bytes_`. -/
def WriteRecord (env : SimEnv) (pr : PullResult) (st : SimState) : OpResult :=
  let i := st.pulls
  match pr with
  | PullResult.failure m =>
    { status := Status.error m
      state := { st with pulls := i + 1 }
      events := [Event.lockAcquire, Event.pull i pr, Event.lockRelease] }
  | PullResult.endOfSequence =>
    let st1 : SimState :=
      { st with pulls := i + 1, writer := { st.writer with end_of_sequence := true } }
    let c := env.closeStatus st1.closes
    { status := c
      state := { st1 with closes := st1.closes + 1 }
      events := [Event.lockAcquire, Event.pull i pr, Event.lockRelease,
                 Event.sinkCloseEos st.writer.chunk_index c] }
  | PullResult.element sz =>
    let st1 : SimState :=
      { st with pulls := i + 1, writer := { st.writer with end_of_sequence := false } }
    let w := env.appendStatus i
    let pre := st1.writer.chunk_size_bytes
    if w.isOk then
      { status := Status.ok
        state := { st1 with writer := { st1.writer with chunk_size_bytes := pre + sz } }
        events := [Event.lockAcquire, Event.pull i pr, Event.lockRelease,
                   Event.append st.writer.chunk_index i sz pre w,
                   Event.lockAcquire, Event.lockRelease] }
    else
      { status := w
        state := st1
        events := [Event.lockAcquire, Event.pull i pr, Event.lockRelease,
                   Event.append st.writer.chunk_index i sz pre w] }

/-- The fill loop of `SnapshotStreamWriter::WriteChunk`:
`while (ShouldWriteRecord()) TF_RETURN_IF_ERROR(WriteRecord(writer));`
driven by the cursor script; pulling from an exhausted script is a model
artifact reported as a distinguished error. -/
def FillLoop (env : SimEnv) : List PullResult → SimState → StepResult
  | [], st =>
    if ShouldWriteRecord env st.writer then
      { status := Status.error "model: the cursor script was exhausted"
        state := st, events := [], cursor := [] }
    else
      { status := Status.ok, state := st, events := [], cursor := [] }
  | pr :: rest, st =>
    if ShouldWriteRecord env st.writer then
      let r := WriteRecord env pr st
      if r.status.isOk then
        let r2 := FillLoop env rest r.state
        { status := r2.status, state := r2.state,
          events := r.events ++ r2.events, cursor := r2.cursor }
      else
        { status := r.status, state := r.state, events := r.events, cursor := rest }
    else
      { status := Status.ok, state := st, events := [], cursor := pr :: rest }

/-- `SnapshotStreamWriter::CommitChunk`: `env_->RenameFile` of the chunk into
the committed directory (a failure is returned without touching the counters);
on success, under `mu_`, `++chunk_index_; chunk_size_bytes_ = 0;`. -/
def CommitChunk (env : SimEnv) (st : SimState) : OpResult :=
  let i := st.writer.chunk_index
  let r := env.renameStatus i
  if r.isOk then
    { status := Status.ok
      state := { st with writer :=
        { st.writer with chunk_index := i + 1, chunk_size_bytes := 0 } }
      events := [Event.renameChunk i r, Event.lockAcquire, Event.lockRelease] }
  else
    { status := r, state := st, events := [Event.renameChunk i r] }

/-- `SnapshotStreamWriter::WriteChunk`: initialize the sink for
`chunk_<chunk_index_>` (a failure is returned with no cleanup registered);
then run the fill loop and, when it succeeds, `CommitChunk`; the
`gtl::MakeCleanup` registered after initialization closes the sink with
`IgnoreError()` when the function's scope exits, i.e. after `CommitChunk`'s
result (or the fill loop's error) has been computed. -/
def WriteChunk (env : SimEnv) (cursor : List PullResult) (st : SimState) : StepResult :=
  let i := st.writer.chunk_index
  let ini := env.sinkInitStatus i
  if ini.isOk then
    let fr := FillLoop env cursor st
    if fr.status.isOk then
      let cc := CommitChunk env fr.state
      let cl := env.closeStatus cc.state.closes
      { status := cc.status
        state := { cc.state with closes := cc.state.closes + 1 }
        events := Event.sinkInit i ini ::
          (fr.events ++ cc.events ++ [Event.sinkCloseCleanup i cl])
        cursor := fr.cursor }
    else
      let cl := env.closeStatus fr.state.closes
      { status := fr.status
        state := { fr.state with closes := fr.state.closes + 1 }
        events := Event.sinkInit i ini :: (fr.events ++ [Event.sinkCloseCleanup i cl])
        cursor := fr.cursor }
  else
    { status := ini, state := st, events := [Event.sinkInit i ini], cursor := cursor }

/-- The outer loop of `SnapshotStreamWriter::WriteSnapshotFn`:
`while (ShouldWriteChunk()) TF_RETURN_IF_ERROR(WriteChunk());` with fuel
bounding the number of iterations (exhaustion is a model artifact). -/
def ChunkLoop (env : SimEnv) : Nat → List PullResult → SimState → StepResult
  | 0, cursor, st =>
    if ShouldWriteChunk st.writer then
      { status := Status.error "model: out of fuel", state := st, events := [], cursor := cursor }
    else
      { status := Status.ok, state := st, events := [], cursor := cursor }
  | fuel + 1, cursor, st =>
    if ShouldWriteChunk st.writer then
      let r := WriteChunk env cursor st
      if r.status.isOk then
        let r2 := ChunkLoop env fuel r.cursor r.state
        { status := r2.status, state := r2.state,
          events := r.events ++ r2.events, cursor := r2.cursor }
      else r
    else
      { status := Status.ok, state := st, events := [], cursor := cursor }

/-- `SnapshotStreamWriter::WriteSnapshotFn`: create the uncommitted chunks
directory (a failure is returned immediately), run the chunk loop
(`TF_RETURN_IF_ERROR(WriteChunk())` propagates the first chunk error), and
finally return `status()`. -/
def WriteSnapshotFn (env : SimEnv) (fuel : Nat) (cursor : List PullResult)
    (st : SimState) : StepResult :=
  let m := env.mkdirStatus
  if m.isOk then
    let r := ChunkLoop env fuel cursor st
    if r.status.isOk then
      { r with status := r.state.writer.status, events := Event.mkdir m :: r.events }
    else
      { r with events := Event.mkdir m :: r.events }
  else
    { status := m, state := st, events := [Event.mkdir m], cursor := cursor }

/-- The thread body installed by `RunSnapshotThread`: run `WriteSnapshotFn`
and, if the result is not ok, store it into `status_` under `mu_`. -/
def RunSnapshotTask (env : SimEnv) (fuel : Nat) (cursor : List PullResult)
    (st : SimState) : StepResult :=
  let r := WriteSnapshotFn env fuel cursor st
  if r.status.isOk then r
  else { r with state := { r.state with writer := { r.state.writer with status := r.status } } }

/-- The writer's state at construction: `status_` ok, `end_of_sequence_`
false, `chunk_index_ = 0`, `chunk_size_bytes_ = 0`. -/
def initialWriter : WriterState :=
  { status := Status.ok, end_of_sequence := false, chunk_index := 0, chunk_size_bytes := 0 }

/-- Initial interpreter state. -/
def initialState : SimState :=
  { writer := initialWriter, pulls := 0, closes := 0 }

/-- A complete run of the background task from construction. -/
def RunWriter (env : SimEnv) (fuel : Nat) (cursor : List PullResult) : StepResult :=
  RunSnapshotTask env fuel cursor initialState

/-- `SnapshotStreamWriter::Wait`: join the background task, then return
`status_` under `mu_` — here, the status field after the task finished. -/
def Wait (r : StepResult) : Status :=
  r.state.writer.status

/-! ## Trace observation helpers -/

/-- The chunk index and lifecycle phase of an event, when it concerns a chunk:
phase 0 = sink initialization (Open), 1 = append, 2 = explicit
end-of-sequence close, 3 = rename (commit attempt), 4 = scope-exit cleanup
close. -/
def phaseOf : Event → Option (Nat × Nat)
  | Event.sinkInit i _ => some (i, 0)
  | Event.append i _ _ _ _ => some (i, 1)
  | Event.sinkCloseEos i _ => some (i, 2)
  | Event.renameChunk i _ => some (i, 3)
  | Event.sinkCloseCleanup i _ => some (i, 4)
  | _ => none

/-- The lifecycle phases of chunk `i`'s events, in trace order. -/
def chunkPhases (i : Nat) (evs : List Event) : List Nat :=
  evs.filterMap fun e =>
    match phaseOf e with
    | some (j, p) => if j = i then some p else none
    | none => none

/-- Indices of successfully renamed (committed) chunks, in trace order. -/
def commitIndices (evs : List Event) : List Nat :=
  evs.filterMap fun e =>
    match e with
    | Event.renameChunk i Status.ok => some i
    | _ => none

/-- Indices of all rename attempts (successful or not), in trace order. -/
def renameIdxsOf (evs : List Event) : List Nat :=
  evs.filterMap fun e =>
    match e with
    | Event.renameChunk i _ => some i
    | _ => none

/-- The results of the cursor pulls, in trace order. -/
def pullResultsOf (evs : List Event) : List PullResult :=
  evs.filterMap fun e =>
    match e with
    | Event.pull _ r => some r
    | _ => none

/-- The pull indices of the cursor pulls, in trace order. -/
def pullIdxsOf (evs : List Event) : List Nat :=
  evs.filterMap fun e =>
    match e with
    | Event.pull j _ => some j
    | _ => none

/-- For each append, the chunk it went to and the pull it came from. -/
def appendRecords (evs : List Event) : List (Nat × Nat) :=
  evs.filterMap fun e =>
    match e with
    | Event.append i j _ _ _ => some (i, j)
    | _ => none

/-- Whether an event is a close (explicit or cleanup) of chunk `i`'s sink. -/
def closeEventOfChunk (i : Nat) : Event → Bool
  | Event.sinkCloseEos j _ => j == i
  | Event.sinkCloseCleanup j _ => j == i
  | _ => false

/-- Whether an event is a rename attempt of chunk `i`. -/
def renameEventOfChunk (i : Nat) : Event → Bool
  | Event.renameChunk j _ => j == i
  | _ => false

/-- Whether some close of chunk `i`'s sink occurs strictly before the first
rename attempt of chunk `i` in the trace. -/
def closedBeforeRenamed (i : Nat) (evs : List Event) : Bool :=
  (evs.takeWhile fun e => !(renameEventOfChunk i e)).any (closeEventOfChunk i)

/-- Whether an append event respects the soft size cap: its recorded
`chunk_size_bytes_` before the write is strictly below the cap.  Non-append
events satisfy this vacuously. -/
def appendBelowCap (max : Nat) : Event → Bool
  | Event.append _ _ _ pre _ => decide (pre < max)
  | _ => true

/-- End-of-sequence discipline of a pull-result list: `endOfSequence` occurs
at most once, and only as the final pull. -/
def eosOnlyLast : List PullResult → Bool
  | [] => true
  | PullResult.endOfSequence :: rest => rest.isEmpty
  | _ :: rest => eosOnlyLast rest

/-- Whether an event is an external (blocking) call, as opposed to a mutex
acquisition or release. -/
def isIoEvent : Event → Bool
  | Event.lockAcquire => false
  | Event.lockRelease => false
  | _ => true

/-- Whether an event is a cursor pull. -/
def isPullEvent : Event → Bool
  | Event.pull _ _ => true
  | _ => false

/-- Scan of a trace collecting the external calls made while the mutex is
held, carrying the current hold depth. -/
def ioUnderLockGo : Nat → List Event → List Event
  | _, [] => []
  | d, Event.lockAcquire :: rest => ioUnderLockGo (d + 1) rest
  | d, Event.lockRelease :: rest => ioUnderLockGo (d - 1) rest
  | d, e :: rest => if d > 0 then e :: ioUnderLockGo d rest else ioUnderLockGo d rest

/-- The external calls performed while the writer's mutex `mu_` is held. -/
def ioEventsUnderLock (evs : List Event) : List Event :=
  ioUnderLockGo 0 evs

/-- The mutex hold depth after a trace, starting from depth `d`. -/
def depthAfter : Nat → List Event → Nat
  | d, [] => d
  | d, Event.lockAcquire :: rest => depthAfter (d + 1) rest
  | d, Event.lockRelease :: rest => depthAfter (d - 1) rest
  | d, _ :: rest => depthAfter d rest

/-! ## Concrete scenario inputs -/

/-- An environment where every external operation succeeds. -/
def allOkEnv (max : Nat) : SimEnv :=
  { mkdirStatus := Status.ok
    sinkInitStatus := fun _ => Status.ok
    appendStatus := fun _ => Status.ok
    closeStatus := fun _ => Status.ok
    renameStatus := fun _ => Status.ok
    max_chunk_size_bytes := max }

/-- Scenario B of the specification: elements of estimated sizes 300, 300,
300, then end of sequence. -/
def scenarioBCursor : List PullResult :=
  [PullResult.element 300, PullResult.element 300, PullResult.element 300,
   PullResult.endOfSequence]

/-- A cursor with two 300-byte elements, then end of sequence. -/
def cursorTwoElems : List PullResult :=
  [PullResult.element 300, PullResult.element 300, PullResult.endOfSequence]

/-- All operations succeed except the first sink `Close` call. -/
def envCloseFail : SimEnv :=
  { allOkEnv 500 with
    closeStatus := fun n => if n = 0 then Status.error "close failed" else Status.ok }

/-- All operations succeed except the append of the second pulled element. -/
def envAppendFail : SimEnv :=
  { allOkEnv 1000 with
    appendStatus := fun n => if n = 1 then Status.error "disk full" else Status.ok }

/-- Shape of the chunk phases contributed by one fill loop: a run of appends,
optionally terminated by a single explicit end-of-sequence close. -/
def FillShape (l : List Nat) : Prop :=
  ∃ n, l = List.replicate n 1 ∨ l = List.replicate n 1 ++ [2]

/-- Shape of the full lifecycle phase list of one chunk within a run: either
untouched, or a failed sink initialization, or: opened once (0), filled by
appends (1) optionally ended by one explicit end-of-sequence close (2), then
an optional single rename attempt (3), and finally the single scope-exit
cleanup close (4) — in that order. -/
def ChunkLifecycleShape (l : List Nat) : Prop :=
  l = [] ∨ l = [0] ∨
  ∃ n t s, (t = [] ∨ t = [2]) ∧ (s = [4] ∨ s = [3, 4]) ∧
    l = 0 :: (List.replicate n 1 ++ t ++ s)

/-! ## Generic trace lemmas -/

theorem chunkPhases_append (i : Nat) (a b : List Event) :
    chunkPhases i (a ++ b) = chunkPhases i a ++ chunkPhases i b := by
  simp [chunkPhases, List.filterMap_append]

theorem commitIndices_append (a b : List Event) :
    commitIndices (a ++ b) = commitIndices a ++ commitIndices b := by
  simp [commitIndices, List.filterMap_append]

theorem renameIdxsOf_append (a b : List Event) :
    renameIdxsOf (a ++ b) = renameIdxsOf a ++ renameIdxsOf b := by
  simp [renameIdxsOf, List.filterMap_append]

theorem pullResultsOf_append (a b : List Event) :
    pullResultsOf (a ++ b) = pullResultsOf a ++ pullResultsOf b := by
  simp [pullResultsOf, List.filterMap_append]

theorem pullIdxsOf_append (a b : List Event) :
    pullIdxsOf (a ++ b) = pullIdxsOf a ++ pullIdxsOf b := by
  simp [pullIdxsOf, List.filterMap_append]

theorem appendRecords_append (a b : List Event) :
    appendRecords (a ++ b) = appendRecords a ++ appendRecords b := by
  simp [appendRecords, List.filterMap_append]

theorem depthAfter_append (d : Nat) (a b : List Event) :
    depthAfter d (a ++ b) = depthAfter (depthAfter d a) b := by
  induction a generalizing d with
  | nil => rfl
  | cons e rest ih => cases e <;> simp [depthAfter, ih]

theorem ioUnderLockGo_append (d : Nat) (a b : List Event) :
    ioUnderLockGo d (a ++ b) = ioUnderLockGo d a ++ ioUnderLockGo (depthAfter d a) b := by
  induction a generalizing d with
  | nil => rfl
  | cons e rest ih =>
    cases e <;> simp [ioUnderLockGo, depthAfter, ih] <;> split <;> simp [ih]

theorem eosOnlyLast_append (a b : List PullResult)
    (ha : PullResult.endOfSequence ∉ a) (hb : eosOnlyLast b = true) :
    eosOnlyLast (a ++ b) = true := by
  induction a with
  | nil => simpa using hb
  | cons p rest ih =>
    cases p with
    | element sz => exact ih (fun h => ha (List.mem_cons_of_mem _ h))
    | endOfSequence => exact absurd (List.mem_cons_self _ _) ha
    | failure m => exact ih (fun h => ha (List.mem_cons_of_mem _ h))

/-! ## Fill-loop invariants -/

theorem fillLoop_chunk_index (env : SimEnv) (cursor : List PullResult) (st : SimState) :
    (FillLoop env cursor st).state.writer.chunk_index = st.writer.chunk_index := by
  induction cursor generalizing st with
  | nil => unfold FillLoop; split <;> rfl
  | cons pr rest ih =>
    unfold FillLoop
    split
    · cases pr <;> simp only [WriteRecord] <;> (repeat' split) <;>
        first
          | rfl
          | exact ih _
    · rfl

theorem fillLoop_writer_status (env : SimEnv) (cursor : List PullResult) (st : SimState) :
    (FillLoop env cursor st).state.writer.status = st.writer.status := by
  induction cursor generalizing st with
  | nil => unfold FillLoop; split <;> rfl
  | cons pr rest ih =>
    unfold FillLoop
    split
    · cases pr <;> simp only [WriteRecord] <;> (repeat' split) <;>
        first
          | rfl
          | exact ih _
    · rfl

theorem shouldWriteRecord_iff (env : SimEnv) (w : WriterState) :
    ShouldWriteRecord env w = true ↔
      w.chunk_size_bytes < env.max_chunk_size_bytes ∧
        w.end_of_sequence = false ∧ w.status.isOk = true := by
  simp [ShouldWriteRecord, Bool.and_eq_true, Bool.not_eq_true', and_assoc]

theorem shouldWriteChunk_iff (w : WriterState) :
    ShouldWriteChunk w = true ↔ w.end_of_sequence = false ∧ w.status.isOk = true := by
  simp [ShouldWriteChunk, Bool.and_eq_true, Bool.not_eq_true']

/-- Once `end_of_sequence_` is set, the record guard fails immediately and the
fill loop does nothing: the cursor is never pulled again inside the chunk. -/
theorem fillLoop_eos_noop (env : SimEnv) (cursor : List PullResult) (st : SimState)
    (h : st.writer.end_of_sequence = true) :
    FillLoop env cursor st =
      { status := Status.ok, state := st, events := [], cursor := cursor } := by
  cases cursor <;> simp [FillLoop, ShouldWriteRecord, h]

/-- Once `end_of_sequence_` is set, the chunk guard fails immediately and the
outer loop does nothing. -/
theorem chunkLoop_eos_noop (env : SimEnv) (fuel : Nat) (cursor : List PullResult) (st : SimState)
    (h : st.writer.end_of_sequence = true) :
    ChunkLoop env fuel cursor st =
      { status := Status.ok, state := st, events := [], cursor := cursor } := by
  cases fuel <;> simp [ChunkLoop, ShouldWriteChunk, h]

theorem fillLoop_pulls_le (env : SimEnv) (cursor : List PullResult) (st : SimState) :
    st.pulls ≤ (FillLoop env cursor st).state.pulls := by
  induction cursor generalizing st with
  | nil => unfold FillLoop; split <;> exact Nat.le_refl _
  | cons pr rest ih =>
    unfold FillLoop
    split
    · cases pr with
      | failure m => exact Nat.le_succ _
      | endOfSequence =>
        simp only [WriteRecord]
        cases hc : env.closeStatus st.closes with
        | ok =>
          exact le_trans (Nat.le_succ _)
            (ih ⟨⟨st.writer.status, true, st.writer.chunk_index, st.writer.chunk_size_bytes⟩,
              st.pulls + 1, st.closes + 1⟩)
        | error m => exact Nat.le_succ _
      | element sz =>
        simp only [WriteRecord]
        cases ha : env.appendStatus st.pulls with
        | ok =>
          exact le_trans (Nat.le_succ _)
            (ih ⟨⟨st.writer.status, false, st.writer.chunk_index,
              st.writer.chunk_size_bytes + sz⟩, st.pulls + 1, st.closes⟩)
        | error m => exact Nat.le_succ _
    · exact Nat.le_refl _

/-- Soft-cap invariant of the fill loop: every append it performs is checked
against `max_chunk_size_bytes_` before the element is pulled, so the recorded
pre-write size of every append is strictly below the cap. -/
theorem fillLoop_below_cap (env : SimEnv) (cursor : List PullResult) (st : SimState) :
    ((FillLoop env cursor st).events.all (appendBelowCap env.max_chunk_size_bytes)) = true := by
  induction cursor generalizing st with
  | nil => unfold FillLoop; split <;> rfl
  | cons pr rest ih =>
    unfold FillLoop
    split
    · rename_i hg
      have hlt := ((shouldWriteRecord_iff env st.writer).mp hg).1
      cases pr <;> simp only [WriteRecord] <;> (repeat' split) <;>
        simp [List.all_append, appendBelowCap, ih, hlt]
    · rfl

theorem FillShape.nil : FillShape [] :=
  ⟨0, Or.inl rfl⟩

theorem FillShape.cons_one {l : List Nat} (h : FillShape l) : FillShape (1 :: l) := by
  obtain ⟨n, h | h⟩ := h
  · exact ⟨n + 1, Or.inl (by simp [h, List.replicate_succ])⟩
  · exact ⟨n + 1, Or.inr (by simp [h, List.replicate_succ])⟩

theorem fillLoop_phases (env : SimEnv) (cursor : List PullResult) (st : SimState) :
    FillShape (chunkPhases st.writer.chunk_index (FillLoop env cursor st).events) ∧
    ∀ j, j ≠ st.writer.chunk_index → chunkPhases j (FillLoop env cursor st).events = [] := by
  induction cursor generalizing st with
  | nil =>
    unfold FillLoop
    split <;> exact ⟨FillShape.nil, fun j hj => rfl⟩
  | cons pr rest ih =>
    unfold FillLoop
    split
    · cases pr with
      | failure m => exact ⟨FillShape.nil, fun j hj => rfl⟩
      | endOfSequence =>
        simp only [WriteRecord]
        cases hc : env.closeStatus st.closes with
        | ok =>
          rw [fillLoop_eos_noop env rest _ rfl]
          refine ⟨⟨0, Or.inr ?_⟩, fun j hj => ?_⟩
          · simp [chunkPhases, phaseOf]
          · have hj2 : ¬(st.writer.chunk_index = j) := fun h => hj h.symm
            simp [chunkPhases, phaseOf, hj2]
        | error m =>
          refine ⟨⟨0, Or.inr ?_⟩, fun j hj => ?_⟩
          · simp [chunkPhases, phaseOf]
          · have hj2 : ¬(st.writer.chunk_index = j) := fun h => hj h.symm
            simp [chunkPhases, phaseOf, hj2]
      | element sz =>
        simp only [WriteRecord]
        cases ha : env.appendStatus st.pulls with
        | ok =>
          simp only [Status.isOk, reduceIte]
          refine ⟨?_, fun j hj => ?_⟩
          · rw [chunkPhases_append]
            have hL : chunkPhases st.writer.chunk_index
                [Event.lockAcquire, Event.pull st.pulls (PullResult.element sz),
                 Event.lockRelease,
                 Event.append st.writer.chunk_index st.pulls sz st.writer.chunk_size_bytes
                   Status.ok,
                 Event.lockAcquire, Event.lockRelease] = [1] := by
              simp [chunkPhases, phaseOf]
            rw [hL]
            exact FillShape.cons_one
              (ih ⟨⟨st.writer.status, false, st.writer.chunk_index,
                st.writer.chunk_size_bytes + sz⟩, st.pulls + 1, st.closes⟩).1
          · have hj2 : ¬(st.writer.chunk_index = j) := fun h => hj h.symm
            rw [chunkPhases_append]
            have hL : chunkPhases j
                [Event.lockAcquire, Event.pull st.pulls (PullResult.element sz),
                 Event.lockRelease,
                 Event.append st.writer.chunk_index st.pulls sz st.writer.chunk_size_bytes
                   Status.ok,
                 Event.lockAcquire, Event.lockRelease] = [] := by
              simp [chunkPhases, phaseOf, hj2]
            rw [hL,
              (ih ⟨⟨st.writer.status, false, st.writer.chunk_index,
                st.writer.chunk_size_bytes + sz⟩, st.pulls + 1, st.closes⟩).2 j hj]
            rfl
        | error m =>
          refine ⟨⟨1, Or.inl ?_⟩, fun j hj => ?_⟩
          · simp [chunkPhases, phaseOf]
          · have hj2 : ¬(st.writer.chunk_index = j) := fun h => hj h.symm
            simp [chunkPhases, phaseOf, hj2]
    · exact ⟨FillShape.nil, fun j hj => rfl⟩

/-- End-of-sequence discipline of one fill loop: starting with the flag clear,
the pulls it performs contain at most one end-of-sequence signal, only as the
final pull; and when the flag is still clear afterwards, no end-of-sequence
was pulled at all. -/
theorem fillLoop_eos_discipline (env : SimEnv) (cursor : List PullResult) (st : SimState)
    (h : st.writer.end_of_sequence = false) :
    eosOnlyLast (pullResultsOf (FillLoop env cursor st).events) = true ∧
    ((FillLoop env cursor st).state.writer.end_of_sequence = false →
      PullResult.endOfSequence ∉ pullResultsOf (FillLoop env cursor st).events) := by
  induction cursor generalizing st with
  | nil =>
    unfold FillLoop
    split <;> exact ⟨rfl, fun _ => List.not_mem_nil _⟩
  | cons pr rest ih =>
    unfold FillLoop
    split
    · cases pr with
      | failure m =>
        simp only [WriteRecord, Status.isOk, reduceIte]
        refine ⟨rfl, fun _ hmem => ?_⟩
        simp [pullResultsOf] at hmem
      | endOfSequence =>
        simp only [WriteRecord]
        cases hc : env.closeStatus st.closes with
        | ok =>
          rw [fillLoop_eos_noop env rest _ rfl]
          refine ⟨?_, fun habs => ?_⟩
          · simp [pullResultsOf, eosOnlyLast]
          · simp at habs
        | error m =>
          refine ⟨?_, fun habs => ?_⟩
          · simp [pullResultsOf, eosOnlyLast]
          · simp at habs
      | element sz =>
        simp only [WriteRecord]
        cases ha : env.appendStatus st.pulls with
        | ok =>
          simp only [Status.isOk, reduceIte]
          have ihx := ih ⟨⟨st.writer.status, false, st.writer.chunk_index,
            st.writer.chunk_size_bytes + sz⟩, st.pulls + 1, st.closes⟩ rfl
          refine ⟨?_, fun hfin hmem => ?_⟩
          · rw [pullResultsOf_append]
            have hL : pullResultsOf
                [Event.lockAcquire, Event.pull st.pulls (PullResult.element sz),
                 Event.lockRelease,
                 Event.append st.writer.chunk_index st.pulls sz st.writer.chunk_size_bytes
                   Status.ok,
                 Event.lockAcquire, Event.lockRelease] = [PullResult.element sz] := rfl
            rw [hL]
            exact eosOnlyLast_append _ _ (by simp) ihx.1
          · rw [pullResultsOf_append] at hmem
            rcases List.mem_append.mp hmem with hmem | hmem
            · simp [pullResultsOf] at hmem
            · exact ihx.2 hfin hmem
        | error m =>
          simp only [Status.isOk, reduceIte]
          refine ⟨rfl, fun _ hmem => ?_⟩
          simp [pullResultsOf] at hmem
    · exact ⟨rfl, fun _ => List.not_mem_nil _⟩

/-- Locking discipline of one fill loop: every mutex scope is balanced, and
the only external call made while the mutex is held is the cursor pull. -/
theorem fillLoop_lock (env : SimEnv) (cursor : List PullResult) (st : SimState) :
    depthAfter 0 (FillLoop env cursor st).events = 0 ∧
    ((ioEventsUnderLock (FillLoop env cursor st).events).all isPullEvent) = true := by
  induction cursor generalizing st with
  | nil => unfold FillLoop; split <;> exact ⟨rfl, rfl⟩
  | cons pr rest ih =>
    unfold FillLoop
    split
    · cases pr with
      | failure m => exact ⟨rfl, rfl⟩
      | endOfSequence =>
        simp only [WriteRecord]
        cases hc : env.closeStatus st.closes with
        | ok =>
          rw [fillLoop_eos_noop env rest _ rfl]
          exact ⟨rfl, rfl⟩
        | error m => exact ⟨rfl, rfl⟩
      | element sz =>
        simp only [WriteRecord]
        cases ha : env.appendStatus st.pulls with
        | ok =>
          simp only [Status.isOk, reduceIte]
          have ihx := ih ⟨⟨st.writer.status, false, st.writer.chunk_index,
            st.writer.chunk_size_bytes + sz⟩, st.pulls + 1, st.closes⟩
          refine ⟨?_, ?_⟩
          · rw [depthAfter_append]
            exact ihx.1
          · rw [ioEventsUnderLock, ioUnderLockGo_append, List.all_append]
            exact (Bool.and_eq_true _ _).mpr ⟨rfl, ihx.2⟩
        | error m => exact ⟨rfl, rfl⟩
    · exact ⟨rfl, rfl⟩

/-- A failed append or a failed explicit end-of-sequence close aborts the fill
loop at once: the loop's status is exactly that error, and the event belongs
to the chunk the loop was filling. -/
theorem fillLoop_fatal (env : SimEnv) (cursor : List PullResult) (st : SimState)
    (mm : String) (i : Nat) :
    ((∃ j sz pre, Event.append i j sz pre (Status.error mm) ∈ (FillLoop env cursor st).events) ∨
      Event.sinkCloseEos i (Status.error mm) ∈ (FillLoop env cursor st).events) →
    (FillLoop env cursor st).status = Status.error mm ∧ i = st.writer.chunk_index := by
  induction cursor generalizing st with
  | nil =>
    unfold FillLoop
    split <;> rintro (⟨j, sz0, pre, hmem⟩ | hmem) <;> simp at hmem
  | cons pr rest ih =>
    unfold FillLoop
    split
    · cases pr with
      | failure m =>
        simp only [WriteRecord, Status.isOk, reduceIte]
        rintro (⟨j, sz0, pre, hmem⟩ | hmem) <;> simp at hmem
      | endOfSequence =>
        simp only [WriteRecord]
        cases hc : env.closeStatus st.closes with
        | ok =>
          rw [fillLoop_eos_noop env rest _ rfl]
          rintro (⟨j, sz0, pre, hmem⟩ | hmem) <;> simp at hmem
        | error m =>
          simp only [Status.isOk, reduceIte]
          rintro (⟨j, sz0, pre, hmem⟩ | hmem) <;> simp at hmem
          obtain ⟨hi, hm⟩ := hmem
          subst hm
          exact ⟨rfl, hi⟩
      | element sz =>
        simp only [WriteRecord]
        cases ha : env.appendStatus st.pulls with
        | ok =>
          simp only [Status.isOk, reduceIte]
          have ihx := ih ⟨⟨st.writer.status, false, st.writer.chunk_index,
            st.writer.chunk_size_bytes + sz⟩, st.pulls + 1, st.closes⟩
          rintro (⟨j, sz0, pre, hmem⟩ | hmem)
          · rw [List.mem_append] at hmem
            rcases hmem with hmem | hmem
            · simp at hmem
            · exact ihx (Or.inl ⟨j, sz0, pre, hmem⟩)
          · rw [List.mem_append] at hmem
            rcases hmem with hmem | hmem
            · simp at hmem
            · exact ihx (Or.inr hmem)
        | error m =>
          simp only [Status.isOk, reduceIte]
          rintro (⟨j, sz0, pre, hmem⟩ | hmem) <;> simp at hmem
          obtain ⟨hi, _, _, _, hm⟩ := hmem
          subst hm
          exact ⟨rfl, hi⟩
    · rintro (⟨j, sz0, pre, hmem⟩ | hmem) <;> simp at hmem

/-- A successful explicit end-of-sequence close inside a fill loop identifies
the chunk being filled, and implies that the loop finished with an ok status
and with `end_of_sequence_` set. -/
theorem fillLoop_closeEos_ok (env : SimEnv) (cursor : List PullResult) (st : SimState)
    (i : Nat) :
    Event.sinkCloseEos i Status.ok ∈ (FillLoop env cursor st).events →
    i = st.writer.chunk_index ∧ (FillLoop env cursor st).status = Status.ok ∧
      (FillLoop env cursor st).state.writer.end_of_sequence = true := by
  induction cursor generalizing st with
  | nil =>
    unfold FillLoop
    split <;> intro hmem <;> simp at hmem
  | cons pr rest ih =>
    unfold FillLoop
    split
    · cases pr with
      | failure m =>
        simp only [WriteRecord, Status.isOk, reduceIte]
        intro hmem
        simp at hmem
      | endOfSequence =>
        simp only [WriteRecord]
        cases hc : env.closeStatus st.closes with
        | ok =>
          rw [fillLoop_eos_noop env rest _ rfl]
          intro hmem
          simp at hmem
          exact ⟨hmem, rfl, rfl⟩
        | error m =>
          simp only [Status.isOk, reduceIte]
          intro hmem
          simp at hmem
      | element sz =>
        simp only [WriteRecord]
        cases ha : env.appendStatus st.pulls with
        | ok =>
          simp only [Status.isOk, reduceIte]
          intro hmem
          rw [List.mem_append] at hmem
          rcases hmem with hmem | hmem
          · simp at hmem
          · exact ih ⟨⟨st.writer.status, false, st.writer.chunk_index,
              st.writer.chunk_size_bytes + sz⟩, st.pulls + 1, st.closes⟩ hmem
        | error m =>
          simp only [Status.isOk, reduceIte]
          intro hmem
          simp at hmem
    · intro hmem
      simp at hmem

/-- The appends of one fill loop all target the chunk being filled, use pull
indices in the loop's pull window, and are in strictly increasing pull
order. -/
theorem fillLoop_append_records (env : SimEnv) (cursor : List PullResult) (st : SimState) :
    (∀ p ∈ appendRecords (FillLoop env cursor st).events,
        p.1 = st.writer.chunk_index ∧ st.pulls ≤ p.2 ∧
          p.2 < (FillLoop env cursor st).state.pulls) ∧
    List.Pairwise (fun a b : Nat × Nat => a.2 < b.2)
      (appendRecords (FillLoop env cursor st).events) := by
  induction cursor generalizing st with
  | nil =>
    unfold FillLoop
    split <;> exact ⟨fun p hp => absurd hp (List.not_mem_nil p), List.Pairwise.nil⟩
  | cons pr rest ih =>
    unfold FillLoop
    split
    · cases pr with
      | failure m =>
        simp only [WriteRecord, Status.isOk, reduceIte]
        exact ⟨fun p hp => by simp [appendRecords] at hp, by simp [appendRecords]⟩
      | endOfSequence =>
        simp only [WriteRecord]
        cases hc : env.closeStatus st.closes with
        | ok =>
          rw [fillLoop_eos_noop env rest _ rfl]
          exact ⟨fun p hp => by simp [appendRecords] at hp, by simp [appendRecords]⟩
        | error m =>
          simp only [Status.isOk, reduceIte]
          exact ⟨fun p hp => by simp [appendRecords] at hp, by simp [appendRecords]⟩
      | element sz =>
        simp only [WriteRecord]
        cases ha : env.appendStatus st.pulls with
        | ok =>
          simp only [Status.isOk, reduceIte]
          have ihx := ih ⟨⟨st.writer.status, false, st.writer.chunk_index,
            st.writer.chunk_size_bytes + sz⟩, st.pulls + 1, st.closes⟩
          have hple := fillLoop_pulls_le env rest ⟨⟨st.writer.status, false,
            st.writer.chunk_index, st.writer.chunk_size_bytes + sz⟩, st.pulls + 1, st.closes⟩
          have hsplit : appendRecords
              ([Event.lockAcquire, Event.pull st.pulls (PullResult.element sz),
                Event.lockRelease,
                Event.append st.writer.chunk_index st.pulls sz st.writer.chunk_size_bytes
                  Status.ok,
                Event.lockAcquire, Event.lockRelease] ++
               (FillLoop env rest ⟨⟨st.writer.status, false, st.writer.chunk_index,
                  st.writer.chunk_size_bytes + sz⟩, st.pulls + 1, st.closes⟩).events) =
              (st.writer.chunk_index, st.pulls) ::
                appendRecords (FillLoop env rest ⟨⟨st.writer.status, false,
                  st.writer.chunk_index, st.writer.chunk_size_bytes + sz⟩,
                  st.pulls + 1, st.closes⟩).events := by
            rw [appendRecords_append]
            rfl
          constructor
          · intro p hp
            rw [hsplit] at hp
            rcases List.mem_cons.mp hp with hp | hp
            · subst hp
              exact ⟨rfl, Nat.le_refl _, lt_of_lt_of_le (Nat.lt_succ_self _) hple⟩
            · obtain ⟨h1, h2, h3⟩ := (ihx.1 p hp)
              exact ⟨h1, le_trans (Nat.le_succ _) h2, h3⟩
          · rw [hsplit]
            refine List.pairwise_cons.mpr ⟨fun b hb => ?_, ihx.2⟩
            exact lt_of_lt_of_le (Nat.lt_succ_self _) (ihx.1 b hb).2.1
        | error m =>
          simp only [Status.isOk, reduceIte]
          refine ⟨fun p hp => ?_, ?_⟩
          · simp [appendRecords] at hp
            subst hp
            exact ⟨rfl, Nat.le_refl _, Nat.lt_succ_self _⟩
          · simp [appendRecords]
    · exact ⟨fun p hp => absurd hp (List.not_mem_nil p), List.Pairwise.nil⟩

theorem chunkPhases_cons (i : Nat) (e : Event) (evs : List Event) :
    chunkPhases i (e :: evs) = chunkPhases i [e] ++ chunkPhases i evs := by
  rw [show e :: evs = [e] ++ evs from rfl, chunkPhases_append]

theorem FillShape.not_mem_three {l : List Nat} (h : FillShape l) : 3 ∉ l := by
  obtain ⟨n, h | h⟩ := h <;> subst h <;> intro hmem
  · exact absurd (List.eq_of_mem_replicate hmem) (by decide)
  · rcases List.mem_append.mp hmem with hmem | hmem
    · exact absurd (List.eq_of_mem_replicate hmem) (by decide)
    · simp at hmem

theorem mem_chunkPhases_rename (i : Nat) (r : Status) (evs : List Event)
    (h : Event.renameChunk i r ∈ evs) : 3 ∈ chunkPhases i evs := by
  induction evs with
  | nil => simp at h
  | cons e rest ih =>
    rw [chunkPhases_cons]
    rcases List.mem_cons.mp h with h | h
    · subst h
      apply List.mem_append_left
      simp [chunkPhases, phaseOf]
    · exact List.mem_append_right _ (ih h)

/-- The fill loop never renames a chunk: commits happen only in
`CommitChunk` after the loop has finished. -/
theorem fillLoop_no_rename (env : SimEnv) (cursor : List PullResult) (st : SimState)
    (i : Nat) (r : Status) :
    Event.renameChunk i r ∉ (FillLoop env cursor st).events := by
  intro h
  have h3 := mem_chunkPhases_rename i r _ h
  by_cases hi : i = st.writer.chunk_index
  · subst hi
    exact absurd h3 (fillLoop_phases env cursor st).1.not_mem_three
  · rw [(fillLoop_phases env cursor st).2 i hi] at h3
    simp at h3

theorem writeChunk_phases (env : SimEnv) (cursor : List PullResult) (st : SimState) :
    ChunkLifecycleShape (chunkPhases st.writer.chunk_index (WriteChunk env cursor st).events) ∧
    ∀ j, j ≠ st.writer.chunk_index → chunkPhases j (WriteChunk env cursor st).events = [] := by
  simp only [WriteChunk]
  cases hini : env.sinkInitStatus st.writer.chunk_index with
  | error m =>
    refine ⟨Or.inr (Or.inl ?_), fun j hj => ?_⟩
    · simp [chunkPhases, phaseOf]
    · have hj2 : ¬(st.writer.chunk_index = j) := fun h => hj h.symm
      simp [chunkPhases, phaseOf, hj2]
  | ok =>
    simp only [Status.isOk, reduceIte, Bool.false_eq_true, if_false, if_true]
    have hfsh := fillLoop_phases env cursor st
    have hidx := fillLoop_chunk_index env cursor st
    cases hfs : (FillLoop env cursor st).status with
    | error m =>
      simp only [Status.isOk, reduceIte, Bool.false_eq_true, if_false, if_true]
      refine ⟨?_, fun j hj => ?_⟩
      · obtain ⟨n, h | h⟩ := hfsh.1
        · refine Or.inr (Or.inr ⟨n, [], [4], Or.inl rfl, Or.inl rfl, ?_⟩)
          rw [chunkPhases_cons, chunkPhases_append, h]
          simp [chunkPhases, phaseOf]
        · refine Or.inr (Or.inr ⟨n, [2], [4], Or.inr rfl, Or.inl rfl, ?_⟩)
          rw [chunkPhases_cons, chunkPhases_append, h]
          simp [chunkPhases, phaseOf]
      · have hj2 : ¬(st.writer.chunk_index = j) := fun h => hj h.symm
        rw [chunkPhases_cons, chunkPhases_append, hfsh.2 j hj]
        simp [chunkPhases, phaseOf, hj2]
    | ok =>
      simp only [Status.isOk, reduceIte, Bool.false_eq_true, if_false, if_true, CommitChunk]
      rw [hidx]
      cases hrn : env.renameStatus st.writer.chunk_index with
      | ok =>
        simp only [Status.isOk, reduceIte, Bool.false_eq_true, if_false, if_true]
        refine ⟨?_, fun j hj => ?_⟩
        · obtain ⟨n, h | h⟩ := hfsh.1
          · refine Or.inr (Or.inr ⟨n, [], [3, 4], Or.inl rfl, Or.inr rfl, ?_⟩)
            rw [chunkPhases_cons, chunkPhases_append, chunkPhases_append, h]
            simp [chunkPhases, phaseOf]
          · refine Or.inr (Or.inr ⟨n, [2], [3, 4], Or.inr rfl, Or.inr rfl, ?_⟩)
            rw [chunkPhases_cons, chunkPhases_append, chunkPhases_append, h]
            simp [chunkPhases, phaseOf]
        · have hj2 : ¬(st.writer.chunk_index = j) := fun h => hj h.symm
          rw [chunkPhases_cons, chunkPhases_append, chunkPhases_append, hfsh.2 j hj]
          simp [chunkPhases, phaseOf, hj2]
      | error m =>
        simp only [Status.isOk, reduceIte, Bool.false_eq_true, if_false, if_true]
        refine ⟨?_, fun j hj => ?_⟩
        · obtain ⟨n, h | h⟩ := hfsh.1
          · refine Or.inr (Or.inr ⟨n, [], [3, 4], Or.inl rfl, Or.inr rfl, ?_⟩)
            rw [chunkPhases_cons, chunkPhases_append, chunkPhases_append, h]
            simp [chunkPhases, phaseOf]
          · refine Or.inr (Or.inr ⟨n, [2], [3, 4], Or.inr rfl, Or.inr rfl, ?_⟩)
            rw [chunkPhases_cons, chunkPhases_append, chunkPhases_append, h]
            simp [chunkPhases, phaseOf]
        · have hj2 : ¬(st.writer.chunk_index = j) := fun h => hj h.symm
          rw [chunkPhases_cons, chunkPhases_append, chunkPhases_append, hfsh.2 j hj]
          simp [chunkPhases, phaseOf, hj2]

theorem pullResultsOf_cons (e : Event) (evs : List Event) :
    pullResultsOf (e :: evs) = pullResultsOf [e] ++ pullResultsOf evs := by
  rw [show e :: evs = [e] ++ evs from rfl, pullResultsOf_append]

theorem appendRecords_cons (e : Event) (evs : List Event) :
    appendRecords (e :: evs) = appendRecords [e] ++ appendRecords evs := by
  rw [show e :: evs = [e] ++ evs from rfl, appendRecords_append]

theorem commitIndices_cons (e : Event) (evs : List Event) :
    commitIndices (e :: evs) = commitIndices [e] ++ commitIndices evs := by
  rw [show e :: evs = [e] ++ evs from rfl, commitIndices_append]

theorem commitIndices_nil_of_no_rename (evs : List Event)
    (h : ∀ i r, Event.renameChunk i r ∉ evs) : commitIndices evs = [] := by
  induction evs with
  | nil => rfl
  | cons e rest ih =>
    have hrest : ∀ i r, Event.renameChunk i r ∉ rest :=
      fun i r hm => h i r (List.mem_cons_of_mem _ hm)
    cases e <;>
      first
        | exact absurd (List.mem_cons_self _ _) (h _ _)
        | exact ih hrest

theorem fillLoop_commitIndices (env : SimEnv) (cursor : List PullResult) (st : SimState) :
    commitIndices (FillLoop env cursor st).events = [] :=
  commitIndices_nil_of_no_rename _ (fun i r => fillLoop_no_rename env cursor st i r)

theorem depthAfter_cons_io (d : Nat) (e : Event) (he : isIoEvent e = true) (evs : List Event) :
    depthAfter d (e :: evs) = depthAfter d evs := by
  cases e <;> simp [depthAfter] <;> simp [isIoEvent] at he

theorem ioUnderLockGo_cons_zero (e : Event) (he : isIoEvent e = true) (evs : List Event) :
    ioUnderLockGo 0 (e :: evs) = ioUnderLockGo 0 evs := by
  cases e <;> simp [ioUnderLockGo] <;> simp [isIoEvent] at he

theorem countP_rename_eq_phase_count (i : Nat) (evs : List Event) :
    evs.countP (renameEventOfChunk i) = (chunkPhases i evs).count 3 := by
  induction evs with
  | nil => rfl
  | cons e rest ih =>
    rw [chunkPhases_cons, List.count_append, List.countP_cons]
    cases e with
    | renameChunk j r =>
      by_cases hji : j = i
      · subst hji
        simp [renameEventOfChunk, chunkPhases, phaseOf, ih]
        omega
      · simp [renameEventOfChunk, chunkPhases, phaseOf, hji, ih]
    | mkdir r => simp [renameEventOfChunk, chunkPhases, phaseOf, ih]
    | lockAcquire => simp [renameEventOfChunk, chunkPhases, phaseOf, ih]
    | lockRelease => simp [renameEventOfChunk, chunkPhases, phaseOf, ih]
    | pull j r => simp [renameEventOfChunk, chunkPhases, phaseOf, ih]
    | sinkInit j r =>
      by_cases hji : j = i
      · subst hji
        simp [renameEventOfChunk, chunkPhases, phaseOf, ih]
      · simp [renameEventOfChunk, chunkPhases, phaseOf, hji, ih]
    | sinkCloseEos j r =>
      by_cases hji : j = i
      · subst hji
        simp [renameEventOfChunk, chunkPhases, phaseOf, ih]
      · simp [renameEventOfChunk, chunkPhases, phaseOf, hji, ih]
    | sinkCloseCleanup j r =>
      by_cases hji : j = i
      · subst hji
        simp [renameEventOfChunk, chunkPhases, phaseOf, ih]
      · simp [renameEventOfChunk, chunkPhases, phaseOf, hji, ih]
    | append j k sz pre r =>
      by_cases hji : j = i
      · subst hji
        simp [renameEventOfChunk, chunkPhases, phaseOf, ih]
      · simp [renameEventOfChunk, chunkPhases, phaseOf, hji, ih]

theorem ChunkLifecycleShape.count_three_le_one {l : List Nat}
    (h : ChunkLifecycleShape l) : l.count 3 ≤ 1 := by
  rcases h with h | h | ⟨n, t, s, ht, hs, h⟩ <;> subst h
  · simp
  · simp
  · rcases ht with ht | ht <;> rcases hs with hs | hs <;> subst ht <;> subst hs <;>
      simp [List.count_append, List.count_replicate, List.count_cons]

theorem writeChunk_pulls_le (env : SimEnv) (cursor : List PullResult) (st : SimState) :
    st.pulls ≤ (WriteChunk env cursor st).state.pulls := by
  simp only [WriteChunk]
  cases hini : env.sinkInitStatus st.writer.chunk_index with
  | error m => exact Nat.le_refl _
  | ok =>
    simp only [Status.isOk, reduceIte, Bool.false_eq_true, if_false, if_true]
    cases hfs : (FillLoop env cursor st).status with
    | error m => exact fillLoop_pulls_le env cursor st
    | ok =>
      simp only [Status.isOk, reduceIte, Bool.false_eq_true, if_false, if_true, CommitChunk]
      cases hrn : env.renameStatus (FillLoop env cursor st).state.writer.chunk_index with
      | ok => exact fillLoop_pulls_le env cursor st
      | error m => exact fillLoop_pulls_le env cursor st

theorem writeChunk_writer_status (env : SimEnv) (cursor : List PullResult) (st : SimState) :
    (WriteChunk env cursor st).state.writer.status = st.writer.status := by
  simp only [WriteChunk]
  cases hini : env.sinkInitStatus st.writer.chunk_index with
  | error m => rfl
  | ok =>
    simp only [Status.isOk, reduceIte, Bool.false_eq_true, if_false, if_true]
    cases hfs : (FillLoop env cursor st).status with
    | error m => exact fillLoop_writer_status env cursor st
    | ok =>
      simp only [Status.isOk, reduceIte, Bool.false_eq_true, if_false, if_true, CommitChunk]
      cases hrn : env.renameStatus (FillLoop env cursor st).state.writer.chunk_index with
      | ok => exact fillLoop_writer_status env cursor st
      | error m => exact fillLoop_writer_status env cursor st

/-- When a chunk attempt succeeds, the chunk index has advanced by exactly
one (the increment done by `CommitChunk` after the successful rename). -/
theorem writeChunk_index_ok (env : SimEnv) (cursor : List PullResult) (st : SimState) :
    (WriteChunk env cursor st).status.isOk = true →
    (WriteChunk env cursor st).state.writer.chunk_index = st.writer.chunk_index + 1 := by
  simp only [WriteChunk]
  cases hini : env.sinkInitStatus st.writer.chunk_index with
  | error m => intro h; simp at h
  | ok =>
    simp only [Status.isOk, reduceIte, Bool.false_eq_true, if_false, if_true]
    have hidx := fillLoop_chunk_index env cursor st
    cases hfs : (FillLoop env cursor st).status with
    | error m => intro h; simp at h
    | ok =>
      simp only [Status.isOk, reduceIte, Bool.false_eq_true, if_false, if_true, CommitChunk]
      rw [hidx]
      cases hrn : env.renameStatus st.writer.chunk_index with
      | ok => intro _; rfl
      | error m => intro h; simp at h

/-- Every append attempted by a chunk attempt respects the soft size cap. -/
theorem writeChunk_below_cap (env : SimEnv) (cursor : List PullResult) (st : SimState) :
    ((WriteChunk env cursor st).events.all (appendBelowCap env.max_chunk_size_bytes)) = true := by
  simp only [WriteChunk]
  cases hini : env.sinkInitStatus st.writer.chunk_index with
  | error m => rfl
  | ok =>
    simp only [Status.isOk, reduceIte, Bool.false_eq_true, if_false, if_true]
    cases hfs : (FillLoop env cursor st).status with
    | error m =>
      simp only [Status.isOk, reduceIte, Bool.false_eq_true, if_false, if_true]
      simp [List.all_cons, List.all_append, appendBelowCap,
        fillLoop_below_cap env cursor st]
    | ok =>
      simp only [Status.isOk, reduceIte, Bool.false_eq_true, if_false, if_true, CommitChunk]
      cases hrn : env.renameStatus (FillLoop env cursor st).state.writer.chunk_index with
      | ok =>
        simp only [Status.isOk, reduceIte, Bool.false_eq_true, if_false, if_true]
        simp [List.all_cons, List.all_append, appendBelowCap,
          fillLoop_below_cap env cursor st]
      | error m =>
        simp only [Status.isOk, reduceIte, Bool.false_eq_true, if_false, if_true]
        simp [List.all_cons, List.all_append, appendBelowCap,
          fillLoop_below_cap env cursor st]

theorem writeChunk_eos_discipline (env : SimEnv) (cursor : List PullResult) (st : SimState)
    (h : st.writer.end_of_sequence = false) :
    eosOnlyLast (pullResultsOf (WriteChunk env cursor st).events) = true ∧
    ((WriteChunk env cursor st).state.writer.end_of_sequence = false →
      PullResult.endOfSequence ∉ pullResultsOf (WriteChunk env cursor st).events) := by
  have hfill := fillLoop_eos_discipline env cursor st h
  simp only [WriteChunk]
  cases hini : env.sinkInitStatus st.writer.chunk_index with
  | error m => exact ⟨rfl, fun _ hmem => by simp [pullResultsOf] at hmem⟩
  | ok =>
    simp only [Status.isOk, reduceIte, Bool.false_eq_true, if_false, if_true]
    cases hfs : (FillLoop env cursor st).status with
    | error m =>
      simp only [Status.isOk, reduceIte, Bool.false_eq_true, if_false, if_true]
      rw [pullResultsOf_cons, pullResultsOf_append]
      refine ⟨?_, fun hfin hmem => ?_⟩
      · simpa [pullResultsOf] using hfill.1
      · rcases List.mem_append.mp hmem with hmem | hmem
        · simp [pullResultsOf] at hmem
        · rcases List.mem_append.mp hmem with hmem | hmem
          · exact hfill.2 hfin hmem
          · simp [pullResultsOf] at hmem
    | ok =>
      simp only [Status.isOk, reduceIte, Bool.false_eq_true, if_false, if_true, CommitChunk]
      cases hrn : env.renameStatus (FillLoop env cursor st).state.writer.chunk_index with
      | ok =>
        simp only [Status.isOk, reduceIte, Bool.false_eq_true, if_false, if_true]
        rw [pullResultsOf_cons, pullResultsOf_append, pullResultsOf_append]
        refine ⟨?_, fun hfin hmem => ?_⟩
        · simpa [pullResultsOf] using hfill.1
        · rcases List.mem_append.mp hmem with hmem | hmem
          · simp [pullResultsOf] at hmem
          · rcases List.mem_append.mp hmem with hmem | hmem
            · rcases List.mem_append.mp hmem with hmem | hmem
              · exact hfill.2 hfin hmem
              · simp [pullResultsOf] at hmem
            · simp [pullResultsOf] at hmem
      | error m =>
        simp only [Status.isOk, reduceIte, Bool.false_eq_true, if_false, if_true]
        rw [pullResultsOf_cons, pullResultsOf_append, pullResultsOf_append]
        refine ⟨?_, fun hfin hmem => ?_⟩
        · simpa [pullResultsOf] using hfill.1
        · rcases List.mem_append.mp hmem with hmem | hmem
          · simp [pullResultsOf] at hmem
          · rcases List.mem_append.mp hmem with hmem | hmem
            · rcases List.mem_append.mp hmem with hmem | hmem
              · exact hfill.2 hfin hmem
              · simp [pullResultsOf] at hmem
            · simp [pullResultsOf] at hmem

theorem writeChunk_lock (env : SimEnv) (cursor : List PullResult) (st : SimState) :
    depthAfter 0 (WriteChunk env cursor st).events = 0 ∧
    ((ioEventsUnderLock (WriteChunk env cursor st).events).all isPullEvent) = true := by
  have hfill := fillLoop_lock env cursor st
  simp only [WriteChunk]
  cases hini : env.sinkInitStatus st.writer.chunk_index with
  | error m => exact ⟨rfl, rfl⟩
  | ok =>
    simp only [Status.isOk, reduceIte, Bool.false_eq_true, if_false, if_true]
    cases hfs : (FillLoop env cursor st).status with
    | error m =>
      simp only [Status.isOk, reduceIte, Bool.false_eq_true, if_false, if_true]
      refine ⟨?_, ?_⟩
      · rw [depthAfter_cons_io 0 (Event.sinkInit st.writer.chunk_index Status.ok) rfl, depthAfter_append, hfill.1]
        rfl
      · rw [ioEventsUnderLock, ioUnderLockGo_cons_zero (Event.sinkInit st.writer.chunk_index Status.ok) rfl, ioUnderLockGo_append,
          hfill.1, List.all_append]
        exact (Bool.and_eq_true _ _).mpr ⟨hfill.2, rfl⟩
    | ok =>
      simp only [Status.isOk, reduceIte, Bool.false_eq_true, if_false, if_true, CommitChunk]
      cases hrn : env.renameStatus (FillLoop env cursor st).state.writer.chunk_index with
      | ok =>
        simp only [Status.isOk, reduceIte, Bool.false_eq_true, if_false, if_true]
        refine ⟨?_, ?_⟩
        · rw [depthAfter_cons_io 0 (Event.sinkInit st.writer.chunk_index Status.ok) rfl, depthAfter_append, depthAfter_append, hfill.1]
          rfl
        · rw [ioEventsUnderLock, ioUnderLockGo_cons_zero (Event.sinkInit st.writer.chunk_index Status.ok) rfl, ioUnderLockGo_append,
            ioUnderLockGo_append, depthAfter_append, hfill.1, List.all_append, List.all_append]
          exact (Bool.and_eq_true _ _).mpr
            ⟨(Bool.and_eq_true _ _).mpr ⟨hfill.2, rfl⟩, rfl⟩
      | error m =>
        simp only [Status.isOk, reduceIte, Bool.false_eq_true, if_false, if_true]
        refine ⟨?_, ?_⟩
        · rw [depthAfter_cons_io 0 (Event.sinkInit st.writer.chunk_index Status.ok) rfl, depthAfter_append, depthAfter_append, hfill.1]
          rfl
        · rw [ioEventsUnderLock, ioUnderLockGo_cons_zero (Event.sinkInit st.writer.chunk_index Status.ok) rfl, ioUnderLockGo_append,
            ioUnderLockGo_append, depthAfter_append, hfill.1, List.all_append, List.all_append]
          exact (Bool.and_eq_true _ _).mpr
            ⟨(Bool.and_eq_true _ _).mpr ⟨hfill.2, rfl⟩, rfl⟩

/-- A chunk attempt commits its chunk exactly when it succeeds; a failed
attempt commits nothing. -/
theorem writeChunk_commits (env : SimEnv) (cursor : List PullResult) (st : SimState) :
    ((WriteChunk env cursor st).status.isOk = true →
      commitIndices (WriteChunk env cursor st).events = [st.writer.chunk_index]) ∧
    ((WriteChunk env cursor st).status.isOk = false →
      commitIndices (WriteChunk env cursor st).events = []) := by
  simp only [WriteChunk]
  cases hini : env.sinkInitStatus st.writer.chunk_index with
  | error m =>
    refine ⟨fun h => ?_, fun _ => rfl⟩
    simp at h
  | ok =>
    simp only [Status.isOk, reduceIte, Bool.false_eq_true, if_false, if_true]
    have hidx := fillLoop_chunk_index env cursor st
    cases hfs : (FillLoop env cursor st).status with
    | error m =>
      simp only [Status.isOk, reduceIte, Bool.false_eq_true, if_false, if_true]
      refine ⟨fun h => ?_, fun _ => ?_⟩
      · simp at h
      · rw [commitIndices_cons, commitIndices_append, fillLoop_commitIndices]
        simp [commitIndices]
    | ok =>
      simp only [Status.isOk, reduceIte, Bool.false_eq_true, if_false, if_true, CommitChunk]
      rw [hidx]
      cases hrn : env.renameStatus st.writer.chunk_index with
      | ok =>
        simp only [Status.isOk, reduceIte, Bool.false_eq_true, if_false, if_true]
        refine ⟨fun _ => ?_, fun h => ?_⟩
        · rw [commitIndices_cons, commitIndices_append, commitIndices_append,
            fillLoop_commitIndices]
          simp [commitIndices]
        · simp at h
      | error m =>
        simp only [Status.isOk, reduceIte, Bool.false_eq_true, if_false, if_true]
        refine ⟨fun h => ?_, fun _ => ?_⟩
        · simp at h
        · rw [commitIndices_cons, commitIndices_append, commitIndices_append,
            fillLoop_commitIndices]
          simp [commitIndices]

/-- A rename failure is the status of the whole chunk attempt, and identifies
the chunk the attempt was committing. -/
theorem writeChunk_rename_fail (env : SimEnv) (cursor : List PullResult) (st : SimState)
    (i : Nat) (m : String) :
    Event.renameChunk i (Status.error m) ∈ (WriteChunk env cursor st).events →
    (WriteChunk env cursor st).status = Status.error m ∧ i = st.writer.chunk_index := by
  simp only [WriteChunk]
  cases hini : env.sinkInitStatus st.writer.chunk_index with
  | error mi =>
    intro hmem
    simp at hmem
  | ok =>
    simp only [Status.isOk, reduceIte, Bool.false_eq_true, if_false, if_true]
    have hidx := fillLoop_chunk_index env cursor st
    cases hfs : (FillLoop env cursor st).status with
    | error mf =>
      simp only [Status.isOk, reduceIte, Bool.false_eq_true, if_false, if_true]
      intro hmem
      simp [List.mem_cons, List.mem_append] at hmem
      exact absurd hmem (fillLoop_no_rename env cursor st i (Status.error m))
    | ok =>
      simp only [Status.isOk, reduceIte, Bool.false_eq_true, if_false, if_true, CommitChunk]
      rw [hidx]
      cases hrn : env.renameStatus st.writer.chunk_index with
      | ok =>
        simp only [Status.isOk, reduceIte, Bool.false_eq_true, if_false, if_true]
        intro hmem
        simp [List.mem_cons, List.mem_append] at hmem
        exact absurd hmem (fillLoop_no_rename env cursor st i (Status.error m))
      | error m2 =>
        simp only [Status.isOk, reduceIte, Bool.false_eq_true, if_false, if_true]
        intro hmem
        simp [List.mem_cons, List.mem_append] at hmem
        rcases hmem with hmem | hmem
        · exact absurd hmem (fillLoop_no_rename env cursor st i (Status.error m))
        · obtain ⟨hi, hm⟩ := hmem
          subst hm
          exact ⟨rfl, hi⟩

/-- A failed append or failed explicit end-of-sequence close is the status of
the whole chunk attempt, identifies the chunk being filled, and precludes the
chunk from being committed within the attempt. -/
theorem writeChunk_fatal (env : SimEnv) (cursor : List PullResult) (st : SimState)
    (mm : String) (i : Nat) :
    ((∃ j sz pre, Event.append i j sz pre (Status.error mm) ∈ (WriteChunk env cursor st).events) ∨
      Event.sinkCloseEos i (Status.error mm) ∈ (WriteChunk env cursor st).events) →
    (WriteChunk env cursor st).status = Status.error mm ∧ i = st.writer.chunk_index ∧
      Event.renameChunk i Status.ok ∉ (WriteChunk env cursor st).events := by
  simp only [WriteChunk]
  cases hini : env.sinkInitStatus st.writer.chunk_index with
  | error m =>
    rintro (⟨j, sz0, pre, hmem⟩ | hmem) <;> simp at hmem
  | ok =>
    simp only [Status.isOk, reduceIte, Bool.false_eq_true, if_false, if_true]
    have hidx := fillLoop_chunk_index env cursor st
    cases hfs : (FillLoop env cursor st).status with
    | error m =>
      simp only [Status.isOk, reduceIte, Bool.false_eq_true, if_false, if_true]
      rintro (⟨j, sz0, pre, hmem⟩ | hmem)
      · simp [List.mem_cons, List.mem_append] at hmem
        have hf := fillLoop_fatal env cursor st mm i (Or.inl ⟨j, sz0, pre, hmem⟩)
        rw [hfs] at hf
        refine ⟨hf.1, hf.2, fun hr => ?_⟩
        simp [List.mem_cons, List.mem_append] at hr
        exact absurd hr (fillLoop_no_rename env cursor st i Status.ok)
      · simp [List.mem_cons, List.mem_append] at hmem
        have hf := fillLoop_fatal env cursor st mm i (Or.inr hmem)
        rw [hfs] at hf
        refine ⟨hf.1, hf.2, fun hr => ?_⟩
        simp [List.mem_cons, List.mem_append] at hr
        exact absurd hr (fillLoop_no_rename env cursor st i Status.ok)
    | ok =>
      simp only [Status.isOk, reduceIte, Bool.false_eq_true, if_false, if_true, CommitChunk]
      rw [hidx]
      cases hrn : env.renameStatus st.writer.chunk_index with
      | ok =>
        simp only [Status.isOk, reduceIte, Bool.false_eq_true, if_false, if_true]
        rintro (⟨j, sz0, pre, hmem⟩ | hmem)
        · simp [List.mem_cons, List.mem_append] at hmem
          have hf := fillLoop_fatal env cursor st mm i (Or.inl ⟨j, sz0, pre, hmem⟩)
          rw [hfs] at hf
          exact absurd hf.1 (by simp)
        · simp [List.mem_cons, List.mem_append] at hmem
          have hf := fillLoop_fatal env cursor st mm i (Or.inr hmem)
          rw [hfs] at hf
          exact absurd hf.1 (by simp)
      | error m =>
        simp only [Status.isOk, reduceIte, Bool.false_eq_true, if_false, if_true]
        rintro (⟨j, sz0, pre, hmem⟩ | hmem)
        · simp [List.mem_cons, List.mem_append] at hmem
          have hf := fillLoop_fatal env cursor st mm i (Or.inl ⟨j, sz0, pre, hmem⟩)
          rw [hfs] at hf
          exact absurd hf.1 (by simp)
        · simp [List.mem_cons, List.mem_append] at hmem
          have hf := fillLoop_fatal env cursor st mm i (Or.inr hmem)
          rw [hfs] at hf
          exact absurd hf.1 (by simp)

/-- A successful explicit end-of-sequence close within a chunk attempt:
the chunk is the one being filled, and if the rename for that chunk
succeeds, the attempt returns ok, the chunk is committed, and
`end_of_sequence_` is left set. -/
theorem writeChunk_closeEos (env : SimEnv) (cursor : List PullResult) (st : SimState)
    (i : Nat) :
    Event.sinkCloseEos i Status.ok ∈ (WriteChunk env cursor st).events →
    i = st.writer.chunk_index ∧
    ((env.renameStatus st.writer.chunk_index).isOk = true →
      (WriteChunk env cursor st).status = Status.ok ∧
      Event.renameChunk st.writer.chunk_index Status.ok ∈ (WriteChunk env cursor st).events ∧
      (WriteChunk env cursor st).state.writer.end_of_sequence = true) := by
  simp only [WriteChunk]
  cases hini : env.sinkInitStatus st.writer.chunk_index with
  | error m =>
    intro hmem
    simp at hmem
  | ok =>
    simp only [Status.isOk, reduceIte, Bool.false_eq_true, if_false, if_true]
    have hidx := fillLoop_chunk_index env cursor st
    cases hfs : (FillLoop env cursor st).status with
    | error m =>
      simp only [Status.isOk, reduceIte, Bool.false_eq_true, if_false, if_true]
      intro hmem
      simp [List.mem_cons, List.mem_append] at hmem
      have hf := fillLoop_closeEos_ok env cursor st i hmem
      rw [hfs] at hf
      exact absurd hf.2.1 (by simp)
    | ok =>
      simp only [Status.isOk, reduceIte, Bool.false_eq_true, if_false, if_true, CommitChunk]
      rw [hidx]
      cases hrn : env.renameStatus st.writer.chunk_index with
      | ok =>
        simp only [Status.isOk, reduceIte, Bool.false_eq_true, if_false, if_true]
        intro hmem
        simp [List.mem_cons, List.mem_append] at hmem
        have hf := fillLoop_closeEos_ok env cursor st i hmem
        refine ⟨hf.1, fun _ => ⟨by trivial, ?_, ?_⟩⟩
        · simp [List.mem_cons, List.mem_append]
        · exact hf.2.2
      | error m =>
        simp only [Status.isOk, reduceIte, Bool.false_eq_true, if_false, if_true]
        intro hmem
        simp [List.mem_cons, List.mem_append] at hmem
        have hf := fillLoop_closeEos_ok env cursor st i hmem
        refine ⟨hf.1, fun habs => ?_⟩
        simp at habs

/-- The appends of one chunk attempt target the chunk being filled, in
strictly increasing cursor-pull order within the attempt's pull window. -/
theorem writeChunk_append_records (env : SimEnv) (cursor : List PullResult) (st : SimState) :
    (∀ p ∈ appendRecords (WriteChunk env cursor st).events,
        p.1 = st.writer.chunk_index ∧ st.pulls ≤ p.2 ∧
          p.2 < (WriteChunk env cursor st).state.pulls) ∧
    List.Pairwise (fun a b : Nat × Nat => a.2 < b.2)
      (appendRecords (WriteChunk env cursor st).events) := by
  have hfill := fillLoop_append_records env cursor st
  simp only [WriteChunk]
  cases hini : env.sinkInitStatus st.writer.chunk_index with
  | error m =>
    exact ⟨fun p hp => by simp [appendRecords] at hp, by simp [appendRecords]⟩
  | ok =>
    simp only [Status.isOk, reduceIte, Bool.false_eq_true, if_false, if_true]
    cases hfs : (FillLoop env cursor st).status with
    | error m =>
      simp only [Status.isOk, reduceIte, Bool.false_eq_true, if_false, if_true]
      have hsplit : appendRecords
          (Event.sinkInit st.writer.chunk_index Status.ok ::
            ((FillLoop env cursor st).events ++
              [Event.sinkCloseCleanup st.writer.chunk_index
                (env.closeStatus (FillLoop env cursor st).state.closes)])) =
          appendRecords (FillLoop env cursor st).events := by
        rw [appendRecords_cons, appendRecords_append]
        simp [appendRecords]
      rw [hsplit]
      exact hfill
    | ok =>
      simp only [Status.isOk, reduceIte, Bool.false_eq_true, if_false, if_true, CommitChunk]
      cases hrn : env.renameStatus (FillLoop env cursor st).state.writer.chunk_index with
      | ok =>
        simp only [Status.isOk, reduceIte, Bool.false_eq_true, if_false, if_true]
        have hsplit : appendRecords
            (Event.sinkInit st.writer.chunk_index Status.ok ::
              ((FillLoop env cursor st).events ++
                [Event.renameChunk (FillLoop env cursor st).state.writer.chunk_index Status.ok,
                 Event.lockAcquire, Event.lockRelease] ++
                [Event.sinkCloseCleanup st.writer.chunk_index
                  (env.closeStatus ((FillLoop env cursor st).state.closes))])) =
            appendRecords (FillLoop env cursor st).events := by
          rw [appendRecords_cons, appendRecords_append, appendRecords_append]
          simp [appendRecords]
        rw [hsplit]
        exact hfill
      | error m =>
        simp only [Status.isOk, reduceIte, Bool.false_eq_true, if_false, if_true]
        have hsplit : appendRecords
            (Event.sinkInit st.writer.chunk_index Status.ok ::
              ((FillLoop env cursor st).events ++
                [Event.renameChunk (FillLoop env cursor st).state.writer.chunk_index
                  (Status.error m)] ++
                [Event.sinkCloseCleanup st.writer.chunk_index
                  (env.closeStatus ((FillLoop env cursor st).state.closes))])) =
            appendRecords (FillLoop env cursor st).events := by
          rw [appendRecords_cons, appendRecords_append, appendRecords_append]
          simp [appendRecords]
        rw [hsplit]
        exact hfill

/-- A failed chunk attempt leaves the chunk index unchanged. -/
theorem writeChunk_index_fail (env : SimEnv) (cursor : List PullResult) (st : SimState) :
    (WriteChunk env cursor st).status.isOk = false →
    (WriteChunk env cursor st).state.writer.chunk_index = st.writer.chunk_index := by
  simp only [WriteChunk]
  cases hini : env.sinkInitStatus st.writer.chunk_index with
  | error m => intro _; rfl
  | ok =>
    simp only [Status.isOk, reduceIte, Bool.false_eq_true, if_false, if_true]
    have hidx := fillLoop_chunk_index env cursor st
    cases hfs : (FillLoop env cursor st).status with
    | error m => intro _; exact hidx
    | ok =>
      simp only [Status.isOk, reduceIte, Bool.false_eq_true, if_false, if_true, CommitChunk]
      rw [hidx]
      cases hrn : env.renameStatus st.writer.chunk_index with
      | ok => intro h; simp at h
      | error m => intro _; exact hidx

theorem chunkLoop_pulls_le (env : SimEnv) (fuel : Nat) (cursor : List PullResult)
    (st : SimState) : st.pulls ≤ (ChunkLoop env fuel cursor st).state.pulls := by
  induction fuel generalizing cursor st with
  | zero =>
    unfold ChunkLoop
    split <;> exact Nat.le_refl _
  | succ fuel ih =>
    simp only [ChunkLoop]
    split
    · cases hws : (WriteChunk env cursor st).status with
      | ok =>
        exact le_trans (writeChunk_pulls_le env cursor st)
          (ih (WriteChunk env cursor st).cursor (WriteChunk env cursor st).state)
      | error m => exact writeChunk_pulls_le env cursor st
    · exact Nat.le_refl _

theorem chunkLoop_writer_status (env : SimEnv) (fuel : Nat) (cursor : List PullResult)
    (st : SimState) :
    (ChunkLoop env fuel cursor st).state.writer.status = st.writer.status := by
  induction fuel generalizing cursor st with
  | zero =>
    unfold ChunkLoop
    split <;> rfl
  | succ fuel ih =>
    simp only [ChunkLoop]
    split
    · cases hws : (WriteChunk env cursor st).status with
      | ok =>
        exact (ih (WriteChunk env cursor st).cursor
          (WriteChunk env cursor st).state).trans (writeChunk_writer_status env cursor st)
      | error m => exact writeChunk_writer_status env cursor st
    · rfl

/-- The chunks committed by the outer loop carry consecutive indices starting
at the current `chunk_index_`, which advances by exactly the number of
committed chunks. -/
theorem chunkLoop_commits (env : SimEnv) (fuel : Nat) (cursor : List PullResult)
    (st : SimState) :
    ∃ k, commitIndices (ChunkLoop env fuel cursor st).events =
        List.range' st.writer.chunk_index k ∧
      (ChunkLoop env fuel cursor st).state.writer.chunk_index =
        st.writer.chunk_index + k := by
  induction fuel generalizing cursor st with
  | zero =>
    unfold ChunkLoop
    split <;> exact ⟨0, rfl, rfl⟩
  | succ fuel ih =>
    simp only [ChunkLoop]
    split
    · cases hws : (WriteChunk env cursor st).status with
      | ok =>
        simp only [Status.isOk, reduceIte, Bool.false_eq_true, if_false, if_true]
        obtain ⟨k, hk1, hk2⟩ :=
          ih (WriteChunk env cursor st).cursor (WriteChunk env cursor st).state
        have hseg := (writeChunk_commits env cursor st).1 (by simp [hws])
        have hidx := writeChunk_index_ok env cursor st (by simp [hws])
        refine ⟨k + 1, ?_, ?_⟩
        · rw [commitIndices_append, hseg, hk1, hidx]
          rfl
        · rw [hk2, hidx]
          omega
      | error m =>
        simp only [Status.isOk, reduceIte, Bool.false_eq_true, if_false, if_true]
        have hseg := (writeChunk_commits env cursor st).2 (by simp [hws])
        have hidx := writeChunk_index_fail env cursor st (by simp [hws])
        exact ⟨0, hseg, by rw [hidx]; exact (Nat.add_zero _).symm⟩
    · exact ⟨0, rfl, rfl⟩

/-- Lifecycle shape of each chunk over a whole outer loop: each chunk index
is touched by at most one chunk attempt, whose events follow the open / fill
/ rename / cleanup-close order; indices below the current one are never
touched again. -/
theorem chunkLoop_phases (env : SimEnv) (fuel : Nat) (cursor : List PullResult)
    (st : SimState) (i : Nat) :
    ChunkLifecycleShape (chunkPhases i (ChunkLoop env fuel cursor st).events) ∧
    (i < st.writer.chunk_index → chunkPhases i (ChunkLoop env fuel cursor st).events = []) := by
  induction fuel generalizing cursor st with
  | zero =>
    unfold ChunkLoop
    split <;> exact ⟨Or.inl rfl, fun _ => rfl⟩
  | succ fuel ih =>
    simp only [ChunkLoop]
    split
    · cases hws : (WriteChunk env cursor st).status with
      | ok =>
        simp only [Status.isOk, reduceIte, Bool.false_eq_true, if_false, if_true]
        obtain ⟨hsh, hlt⟩ :=
          ih (WriteChunk env cursor st).cursor (WriteChunk env cursor st).state
        have hwp := writeChunk_phases env cursor st
        have hidx := writeChunk_index_ok env cursor st (by simp [hws])
        rw [chunkPhases_append]
        rcases Nat.lt_trichotomy i st.writer.chunk_index with hi | hi | hi
        · rw [hwp.2 i (Nat.ne_of_lt hi), hlt (by rw [hidx]; omega), List.append_nil]
          exact ⟨Or.inl rfl, fun _ => rfl⟩
        · subst hi
          rw [hlt (by rw [hidx]; omega), List.append_nil]
          exact ⟨hwp.1, fun habs => absurd habs (Nat.lt_irrefl _)⟩
        · rw [hwp.2 i (by omega), List.nil_append]
          exact ⟨hsh, fun habs => absurd habs (by omega)⟩
      | error m =>
        simp only [Status.isOk, reduceIte, Bool.false_eq_true, if_false, if_true]
        have hwp := writeChunk_phases env cursor st
        by_cases hi : i = st.writer.chunk_index
        · subst hi
          exact ⟨hwp.1, fun habs => absurd habs (Nat.lt_irrefl _)⟩
        · rw [hwp.2 i hi]
          exact ⟨Or.inl rfl, fun _ => rfl⟩
    · exact ⟨Or.inl rfl, fun _ => rfl⟩

theorem chunkLoop_below_cap (env : SimEnv) (fuel : Nat) (cursor : List PullResult)
    (st : SimState) :
    ((ChunkLoop env fuel cursor st).events.all (appendBelowCap env.max_chunk_size_bytes)) =
      true := by
  induction fuel generalizing cursor st with
  | zero =>
    unfold ChunkLoop
    split <;> rfl
  | succ fuel ih =>
    simp only [ChunkLoop]
    split
    · cases hws : (WriteChunk env cursor st).status with
      | ok =>
        simp only [Status.isOk, reduceIte, Bool.false_eq_true, if_false, if_true]
        rw [List.all_append]
        exact (Bool.and_eq_true _ _).mpr ⟨writeChunk_below_cap env cursor st,
          ih (WriteChunk env cursor st).cursor (WriteChunk env cursor st).state⟩
      | error m => exact writeChunk_below_cap env cursor st
    · rfl

/-- Over a whole outer loop started with the end-of-sequence flag clear, the
cursor yields at most one end-of-sequence result, and only as the very last
pull: the cursor is never pulled again after reporting end of sequence. -/
theorem chunkLoop_eos (env : SimEnv) (fuel : Nat) (cursor : List PullResult)
    (st : SimState) (h : st.writer.end_of_sequence = false) :
    eosOnlyLast (pullResultsOf (ChunkLoop env fuel cursor st).events) = true := by
  induction fuel generalizing cursor st with
  | zero =>
    unfold ChunkLoop
    split <;> rfl
  | succ fuel ih =>
    simp only [ChunkLoop]
    split
    · cases hws : (WriteChunk env cursor st).status with
      | ok =>
        simp only [Status.isOk, reduceIte, Bool.false_eq_true, if_false, if_true]
        rw [pullResultsOf_append]
        have hwe := writeChunk_eos_discipline env cursor st h
        cases hseos : (WriteChunk env cursor st).state.writer.end_of_sequence with
        | true =>
          rw [chunkLoop_eos_noop env fuel (WriteChunk env cursor st).cursor
            (WriteChunk env cursor st).state hseos]
          simpa [pullResultsOf] using hwe.1
        | false =>
          exact eosOnlyLast_append _ _ (hwe.2 hseos)
            (ih (WriteChunk env cursor st).cursor (WriteChunk env cursor st).state hseos)
      | error m => exact (writeChunk_eos_discipline env cursor st h).1
    · rfl

theorem chunkLoop_lock (env : SimEnv) (fuel : Nat) (cursor : List PullResult)
    (st : SimState) :
    depthAfter 0 (ChunkLoop env fuel cursor st).events = 0 ∧
    ((ioEventsUnderLock (ChunkLoop env fuel cursor st).events).all isPullEvent) = true := by
  induction fuel generalizing cursor st with
  | zero =>
    unfold ChunkLoop
    split <;> exact ⟨rfl, rfl⟩
  | succ fuel ih =>
    simp only [ChunkLoop]
    split
    · cases hws : (WriteChunk env cursor st).status with
      | ok =>
        simp only [Status.isOk, reduceIte, Bool.false_eq_true, if_false, if_true]
        refine ⟨?_, ?_⟩
        · rw [depthAfter_append, (writeChunk_lock env cursor st).1]
          exact (ih (WriteChunk env cursor st).cursor (WriteChunk env cursor st).state).1
        · rw [ioEventsUnderLock, ioUnderLockGo_append, (writeChunk_lock env cursor st).1,
            List.all_append]
          exact (Bool.and_eq_true _ _).mpr ⟨(writeChunk_lock env cursor st).2,
            (ih (WriteChunk env cursor st).cursor (WriteChunk env cursor st).state).2⟩
      | error m => exact writeChunk_lock env cursor st
    · exact ⟨rfl, rfl⟩

theorem mem_commitIndices_of_rename_ok (i : Nat) (evs : List Event)
    (h : Event.renameChunk i Status.ok ∈ evs) : i ∈ commitIndices evs := by
  induction evs with
  | nil => simp at h
  | cons e rest ih =>
    rw [commitIndices_cons]
    rcases List.mem_cons.mp h with h | h
    · subst h
      apply List.mem_append_left
      simp [commitIndices]
    · exact List.mem_append_right _ (ih h)

/-- A failed append or failed explicit end-of-sequence close anywhere in the
outer loop: the loop stops with exactly that error, the event belongs to a
chunk at or above the starting index, and that chunk is never committed. -/
theorem chunkLoop_fatal (env : SimEnv) (fuel : Nat) (cursor : List PullResult)
    (st : SimState) (mm : String) (i : Nat) :
    ((∃ j sz pre,
        Event.append i j sz pre (Status.error mm) ∈ (ChunkLoop env fuel cursor st).events) ∨
      Event.sinkCloseEos i (Status.error mm) ∈ (ChunkLoop env fuel cursor st).events) →
    (ChunkLoop env fuel cursor st).status = Status.error mm ∧
      st.writer.chunk_index ≤ i ∧
      Event.renameChunk i Status.ok ∉ (ChunkLoop env fuel cursor st).events := by
  induction fuel generalizing cursor st with
  | zero =>
    unfold ChunkLoop
    split <;> rintro (⟨j, sz0, pre, hmem⟩ | hmem) <;> simp at hmem
  | succ fuel ih =>
    simp only [ChunkLoop]
    split
    · cases hws : (WriteChunk env cursor st).status with
      | ok =>
        simp only [Status.isOk, reduceIte, Bool.false_eq_true, if_false, if_true]
        have hidx := writeChunk_index_ok env cursor st (by simp [hws])
        have hcom := (writeChunk_commits env cursor st).1 (by simp [hws])
        rintro (⟨j, sz0, pre, hmem⟩ | hmem) <;>
        · rcases List.mem_append.mp hmem with hmem | hmem
          · first
            | (have hwf := writeChunk_fatal env cursor st mm i (Or.inl ⟨j, sz0, pre, hmem⟩)
               rw [hws] at hwf
               exact absurd hwf.1 (by simp))
            | (have hwf := writeChunk_fatal env cursor st mm i (Or.inr hmem)
               rw [hws] at hwf
               exact absurd hwf.1 (by simp))
          · first
            | (have hrec := ih (WriteChunk env cursor st).cursor
                 (WriteChunk env cursor st).state (Or.inl ⟨j, sz0, pre, hmem⟩)
               refine ⟨hrec.1, ?_, ?_⟩
               · have h2 := hrec.2.1
                 rw [hidx] at h2
                 omega
               · intro hr
                 rcases List.mem_append.mp hr with hr | hr
                 · have hmi := mem_commitIndices_of_rename_ok i _ hr
                   rw [hcom] at hmi
                   have h2 := hrec.2.1
                   rw [hidx] at h2
                   simp at hmi
                   omega
                 · exact hrec.2.2 hr)
            | (have hrec := ih (WriteChunk env cursor st).cursor
                 (WriteChunk env cursor st).state (Or.inr hmem)
               refine ⟨hrec.1, ?_, ?_⟩
               · have h2 := hrec.2.1
                 rw [hidx] at h2
                 omega
               · intro hr
                 rcases List.mem_append.mp hr with hr | hr
                 · have hmi := mem_commitIndices_of_rename_ok i _ hr
                   rw [hcom] at hmi
                   have h2 := hrec.2.1
                   rw [hidx] at h2
                   simp at hmi
                   omega
                 · exact hrec.2.2 hr)
      | error m =>
        simp only [Status.isOk, reduceIte, Bool.false_eq_true, if_false, if_true]
        rintro (⟨j, sz0, pre, hmem⟩ | hmem)
        · have hwf := writeChunk_fatal env cursor st mm i (Or.inl ⟨j, sz0, pre, hmem⟩)
          exact ⟨hwf.1, Nat.le_of_eq hwf.2.1.symm, hwf.2.2⟩
        · have hwf := writeChunk_fatal env cursor st mm i (Or.inr hmem)
          exact ⟨hwf.1, Nat.le_of_eq hwf.2.1.symm, hwf.2.2⟩
    · rintro (⟨j, sz0, pre, hmem⟩ | hmem) <;> simp at hmem

/-- A rename failure anywhere in the outer loop is the loop's final status. -/
theorem chunkLoop_rename_fail (env : SimEnv) (fuel : Nat) (cursor : List PullResult)
    (st : SimState) (i : Nat) (m : String) :
    Event.renameChunk i (Status.error m) ∈ (ChunkLoop env fuel cursor st).events →
    (ChunkLoop env fuel cursor st).status = Status.error m := by
  induction fuel generalizing cursor st with
  | zero =>
    unfold ChunkLoop
    split <;> intro hmem <;> simp at hmem
  | succ fuel ih =>
    simp only [ChunkLoop]
    split
    · cases hws : (WriteChunk env cursor st).status with
      | ok =>
        simp only [Status.isOk, reduceIte, Bool.false_eq_true, if_false, if_true]
        intro hmem
        rcases List.mem_append.mp hmem with hmem | hmem
        · have hwf := writeChunk_rename_fail env cursor st i m hmem
          rw [hws] at hwf
          exact absurd hwf.1 (by simp)
        · exact ih (WriteChunk env cursor st).cursor (WriteChunk env cursor st).state hmem
      | error mw =>
        simp only [Status.isOk, reduceIte, Bool.false_eq_true, if_false, if_true]
        intro hmem
        have hwf := writeChunk_rename_fail env cursor st i m hmem
        exact hwf.1
    · intro hmem
      simp at hmem

/-- A successful explicit end-of-sequence close anywhere in the outer loop:
if the rename of that chunk succeeds, the loop ends ok and the chunk is
committed. -/
theorem chunkLoop_closeEos (env : SimEnv) (fuel : Nat) (cursor : List PullResult)
    (st : SimState) (i : Nat) (hrn : (env.renameStatus i).isOk = true) :
    Event.sinkCloseEos i Status.ok ∈ (ChunkLoop env fuel cursor st).events →
    (ChunkLoop env fuel cursor st).status = Status.ok ∧
      Event.renameChunk i Status.ok ∈ (ChunkLoop env fuel cursor st).events := by
  induction fuel generalizing cursor st with
  | zero =>
    unfold ChunkLoop
    split <;> intro hmem <;> simp at hmem
  | succ fuel ih =>
    simp only [ChunkLoop]
    split
    · cases hws : (WriteChunk env cursor st).status with
      | ok =>
        simp only [Status.isOk, reduceIte, Bool.false_eq_true, if_false, if_true]
        intro hmem
        rcases List.mem_append.mp hmem with hmem | hmem
        · have hwc := writeChunk_closeEos env cursor st i hmem
          have h2 := hwc.2 (by rw [← hwc.1]; exact hrn)
          rw [chunkLoop_eos_noop env fuel (WriteChunk env cursor st).cursor
            (WriteChunk env cursor st).state h2.2.2]
          refine ⟨by trivial, ?_⟩
          rw [hwc.1]
          exact List.mem_append_left _ h2.2.1
        · have hrec := ih (WriteChunk env cursor st).cursor
            (WriteChunk env cursor st).state hmem
          exact ⟨hrec.1, List.mem_append_right _ hrec.2⟩
      | error mw =>
        simp only [Status.isOk, reduceIte, Bool.false_eq_true, if_false, if_true]
        intro hmem
        have hwc := writeChunk_closeEos env cursor st i hmem
        have h2 := hwc.2 (by rw [← hwc.1]; exact hrn)
        rw [hws] at h2
        exact absurd h2.1 (by simp)
    · intro hmem
      simp at hmem

/-- Appends over the whole outer loop: chunk targets never decrease below the
starting index, and the append order follows both the chunk order and the
cursor-pull order. -/
theorem chunkLoop_append_records (env : SimEnv) (fuel : Nat) (cursor : List PullResult)
    (st : SimState) :
    (∀ p ∈ appendRecords (ChunkLoop env fuel cursor st).events,
        st.writer.chunk_index ≤ p.1 ∧ st.pulls ≤ p.2 ∧
          p.2 < (ChunkLoop env fuel cursor st).state.pulls) ∧
    List.Pairwise (fun a b : Nat × Nat => a.1 ≤ b.1 ∧ a.2 < b.2)
      (appendRecords (ChunkLoop env fuel cursor st).events) := by
  induction fuel generalizing cursor st with
  | zero =>
    unfold ChunkLoop
    split <;> exact ⟨fun p hp => absurd hp (List.not_mem_nil p), List.Pairwise.nil⟩
  | succ fuel ih =>
    simp only [ChunkLoop]
    split
    · cases hws : (WriteChunk env cursor st).status with
      | ok =>
        simp only [Status.isOk, reduceIte, Bool.false_eq_true, if_false, if_true]
        obtain ⟨ihb, ihp⟩ :=
          ih (WriteChunk env cursor st).cursor (WriteChunk env cursor st).state
        obtain ⟨wb, wp⟩ := writeChunk_append_records env cursor st
        have hidx := writeChunk_index_ok env cursor st (by simp [hws])
        have hple := chunkLoop_pulls_le env fuel (WriteChunk env cursor st).cursor
          (WriteChunk env cursor st).state
        rw [appendRecords_append]
        constructor
        · intro p hp
          rcases List.mem_append.mp hp with hp | hp
          · obtain ⟨h1, h2, h3⟩ := wb p hp
            exact ⟨le_of_eq h1.symm, h2, lt_of_lt_of_le h3 hple⟩
          · obtain ⟨h1, h2, h3⟩ := ihb p hp
            refine ⟨?_, le_trans (writeChunk_pulls_le env cursor st) h2, h3⟩
            rw [hidx] at h1
            omega
        · rw [List.pairwise_append]
          refine ⟨?_, ihp, ?_⟩
          · exact wp.imp_of_mem (fun ha hb hr =>
              ⟨by rw [(wb _ ha).1, (wb _ hb).1], hr⟩)
          · intro a ha b hb
            obtain ⟨a1, a2, a3⟩ := wb a ha
            obtain ⟨b1, b2, b3⟩ := ihb b hb
            refine ⟨?_, lt_of_lt_of_le a3 b2⟩
            rw [a1]
            rw [hidx] at b1
            omega
      | error m =>
        simp only [Status.isOk, reduceIte, Bool.false_eq_true, if_false, if_true]
        obtain ⟨wb, wp⟩ := writeChunk_append_records env cursor st
        constructor
        · intro p hp
          obtain ⟨h1, h2, h3⟩ := wb p hp
          exact ⟨le_of_eq h1.symm, h2, h3⟩
        · exact wp.imp_of_mem (fun ha hb hr =>
            ⟨by rw [(wb _ ha).1, (wb _ hb).1], hr⟩)
    · exact ⟨fun p hp => absurd hp (List.not_mem_nil p), List.Pairwise.nil⟩

theorem runWriter_events_ok (env : SimEnv) (fuel : Nat) (cursor : List PullResult)
    (h : env.mkdirStatus = Status.ok) :
    (RunWriter env fuel cursor).events =
      Event.mkdir Status.ok :: (ChunkLoop env fuel cursor initialState).events := by
  simp only [RunWriter, RunSnapshotTask, WriteSnapshotFn, h]
  simp only [Status.isOk, reduceIte, Bool.false_eq_true, if_false, if_true]
  cases hcl : (ChunkLoop env fuel cursor initialState).status with
  | ok =>
    rw [chunkLoop_writer_status env fuel cursor initialState]
    simp [initialState, initialWriter]
  | error m => simp

theorem runWriter_events_fail (env : SimEnv) (fuel : Nat) (cursor : List PullResult)
    (m : String) (h : env.mkdirStatus = Status.error m) :
    (RunWriter env fuel cursor).events = [Event.mkdir (Status.error m)] := by
  simp only [RunWriter, RunSnapshotTask, WriteSnapshotFn, h]
  simp only [Status.isOk, reduceIte, Bool.false_eq_true, if_false, if_true]

theorem wait_of_mkdir_fail (env : SimEnv) (fuel : Nat) (cursor : List PullResult)
    (m : String) (h : env.mkdirStatus = Status.error m) :
    Wait (RunWriter env fuel cursor) = Status.error m := by
  simp only [Wait, RunWriter, RunSnapshotTask, WriteSnapshotFn, h]
  simp only [Status.isOk, reduceIte, Bool.false_eq_true, if_false, if_true]

theorem wait_of_loop_ok (env : SimEnv) (fuel : Nat) (cursor : List PullResult)
    (hm : env.mkdirStatus = Status.ok)
    (hl : (ChunkLoop env fuel cursor initialState).status = Status.ok) :
    Wait (RunWriter env fuel cursor) = Status.ok := by
  simp only [Wait, RunWriter, RunSnapshotTask, WriteSnapshotFn, hm]
  simp only [Status.isOk, reduceIte, Bool.false_eq_true, if_false, if_true]
  rw [hl]
  simp only [Status.isOk, reduceIte, Bool.false_eq_true, if_false, if_true]
  rw [chunkLoop_writer_status env fuel cursor initialState]
  simp [initialState, initialWriter]
  exact chunkLoop_writer_status env fuel cursor _

theorem wait_of_loop_error (env : SimEnv) (fuel : Nat) (cursor : List PullResult)
    (m : String) (hm : env.mkdirStatus = Status.ok)
    (hl : (ChunkLoop env fuel cursor initialState).status = Status.error m) :
    Wait (RunWriter env fuel cursor) = Status.error m := by
  simp only [Wait, RunWriter, RunSnapshotTask, WriteSnapshotFn, hm]
  simp only [Status.isOk, reduceIte, Bool.false_eq_true, if_false, if_true]
  rw [hl]
  simp only [Status.isOk, reduceIte, Bool.false_eq_true, if_false, if_true]

/-! ## Claim theorems -/

/-- C1 counterexample: with a terminal read error already recorded in the
Shared Status Cell, `Cancel` still overwrites it with the cancellation
error, so a subsequent `status` call no longer returns the first terminal
status — refuting that a terminal status, once recorded, is never
overwritten. -/
theorem C1_cancel_overwrites_counterexample :
    statusFn (Cancel ⟨Status.error "read error", false, 0, 0⟩) ≠ Status.error "read error" ∧
    statusFn (Cancel ⟨Status.error "read error", false, 0, 0⟩) =
      Status.error cancelledMessage := by
  decide

/-- C1 (amended): writes to the Shared Status Cell are last-write-wins, not
first-write-wins: `Cancel` unconditionally stores the cancellation error even
over a prior terminal status, the background task's final non-ok status
overwrites whatever is recorded (an ok result stores nothing), and `status`
returns whatever was stored last. -/
theorem C1_status_last_write_wins (w : WriterState) (e : String) :
    statusFn (Cancel w) = Status.error cancelledMessage ∧
    statusFn (recordSnapshotResult (Status.error e) (Cancel w)) = Status.error e ∧
    statusFn (Cancel (recordSnapshotResult (Status.error e) w)) =
      Status.error cancelledMessage ∧
    recordSnapshotResult Status.ok w = w :=
  ⟨rfl, rfl, rfl, rfl⟩

/-- C2 counterexample: in the Scenario-B run, chunk 0 — whose fill loop ends
at the size cap — is renamed into the committed directory before its sink is
ever closed (no close of chunk 0 precedes its rename), and chunk 1 — closed
at end of sequence — is closed twice, once explicitly and once by the
scope-exit cleanup; both refute `Open → Closed → Committed with the close
happening exactly once`. -/
theorem C2_close_rename_order_counterexample :
    closedBeforeRenamed 0 (RunWriter (allOkEnv 500) 5 scenarioBCursor).events = false ∧
    Event.renameChunk 0 Status.ok ∈ (RunWriter (allOkEnv 500) 5 scenarioBCursor).events ∧
    (RunWriter (allOkEnv 500) 5 scenarioBCursor).events.countP (closeEventOfChunk 0) = 1 ∧
    (RunWriter (allOkEnv 500) 5 scenarioBCursor).events.countP (closeEventOfChunk 1) = 2 := by
  decide

/-- C2 (amended): on every run, each chunk's lifecycle events follow the
shape open (at most once, never reopened) → appends → optional single
explicit end-of-sequence close → optional single rename → single scope-exit
cleanup close, in that order: no append or reopen ever follows a close, the
explicit end-of-sequence close (when present) precedes the rename, and the
scope-exit cleanup close runs after the rename — so a chunk rotated at the
size cap is renamed before its sink is closed, and a chunk ended by end of
sequence is closed a second time by the cleanup. -/
theorem C2_chunk_lifecycle_shape (env : SimEnv) (fuel : Nat) (cursor : List PullResult)
    (i : Nat) :
    ChunkLifecycleShape (chunkPhases i (RunWriter env fuel cursor).events) := by
  cases hm : env.mkdirStatus with
  | ok =>
    rw [runWriter_events_ok env fuel cursor hm, chunkPhases_cons]
    have h0 : chunkPhases i [Event.mkdir Status.ok] = [] := rfl
    rw [h0, List.nil_append]
    exact (chunkLoop_phases env fuel cursor initialState i).1
  | error m =>
    rw [runWriter_events_fail env fuel cursor m hm]
    exact Or.inl rfl

/-- C3 counterexample: in the Scenario-B run the very first cursor pull
(`GetNext`) is performed while the mutex `mu_` is held, refuting that the
lock is never held across a blocking call. -/
theorem C3_cursor_pull_under_lock_counterexample :
    Event.pull 0 (PullResult.element 300) ∈
      ioEventsUnderLock (RunWriter (allOkEnv 500) 5 scenarioBCursor).events := by
  decide

/-- C3 (amended): on every run, the only external calls performed while the
lock guarding the Shared Status Cell is held are cursor pulls (`GetNext` is
called inside the `mutex_lock` scope of `WriteRecord`); no file operation —
directory creation, sink initialization, append, close, or rename — happens
under the lock. -/
theorem C3_only_cursor_pulls_under_lock (env : SimEnv) (fuel : Nat)
    (cursor : List PullResult) :
    ((ioEventsUnderLock (RunWriter env fuel cursor).events).all isPullEvent) = true := by
  cases hm : env.mkdirStatus with
  | ok =>
    rw [runWriter_events_ok env fuel cursor hm, ioEventsUnderLock,
      ioUnderLockGo_cons_zero (Event.mkdir Status.ok) rfl]
    exact (chunkLoop_lock env fuel cursor initialState).2
  | error m =>
    rw [runWriter_events_fail env fuel cursor m hm]
    rfl

/-- C4: the rotation policy is a soft cap checked before each write — on
every run, every append records a pre-write `chunk_size_bytes_` strictly
below `max_chunk_size_bytes_`, so no write is attempted once the accumulated
size is at or above the cap, and each committed chunk's final size is below
the cap plus the size of the element that triggered rotation. -/
theorem C4_soft_cap_checked_before_each_write (env : SimEnv) (fuel : Nat)
    (cursor : List PullResult) :
    ((RunWriter env fuel cursor).events.all
      (appendBelowCap env.max_chunk_size_bytes)) = true := by
  cases hm : env.mkdirStatus with
  | ok =>
    rw [runWriter_events_ok env fuel cursor hm, List.all_cons]
    exact (Bool.and_eq_true _ _).mpr
      ⟨rfl, chunkLoop_below_cap env fuel cursor initialState⟩
  | error m =>
    rw [runWriter_events_fail env fuel cursor m hm]
    rfl

/-- C5: Scenario B — with `max_chunk_size_bytes = 500` and a cursor yielding
elements of estimated sizes 300, 300, 300 then end of sequence, the run
commits exactly chunks 0 and 1, chunk 0 receiving the first two elements
(rotation before the third write since 600 < 500 fails) and chunk 1 the
third, after which end of sequence closes and commits chunk 1 and `Wait`
returns ok. -/
theorem C5_scenario_b_two_chunks :
    commitIndices (RunWriter (allOkEnv 500) 5 scenarioBCursor).events = [0, 1] ∧
    appendRecords (RunWriter (allOkEnv 500) 5 scenarioBCursor).events =
      [(0, 0), (0, 1), (1, 2)] ∧
    pullResultsOf (RunWriter (allOkEnv 500) 5 scenarioBCursor).events =
      [PullResult.element 300, PullResult.element 300, PullResult.element 300,
       PullResult.endOfSequence] ∧
    Wait (RunWriter (allOkEnv 500) 5 scenarioBCursor) = Status.ok := by
  decide

/-- C6: whenever the cursor reports end of sequence while a chunk is open and
no error has occurred (the explicit close succeeded, and the commit rename
itself succeeds), that chunk — even with zero elements written — is
committed rather than discarded, and the run terminates with `Wait`
returning ok. -/
theorem C6_eos_commits_open_chunk (env : SimEnv) (fuel : Nat)
    (cursor : List PullResult) (i : Nat)
    (hclose : Event.sinkCloseEos i Status.ok ∈ (RunWriter env fuel cursor).events)
    (hrn : (env.renameStatus i).isOk = true) :
    Event.renameChunk i Status.ok ∈ (RunWriter env fuel cursor).events ∧
    Wait (RunWriter env fuel cursor) = Status.ok := by
  cases hm : env.mkdirStatus with
  | error m =>
    rw [runWriter_events_fail env fuel cursor m hm] at hclose
    simp at hclose
  | ok =>
    rw [runWriter_events_ok env fuel cursor hm] at hclose ⊢
    rcases List.mem_cons.mp hclose with hc | hc
    · simp at hc
    · have h := chunkLoop_closeEos env fuel cursor initialState i hrn hc
      exact ⟨List.mem_cons_of_mem _ h.2, wait_of_loop_ok env fuel cursor hm h.1⟩

/-- C6 witness: a run with two 300-byte elements and cap 500 commits chunk 1
empty — the end-of-sequence close arrives before any element was appended to
chunk 1, and the chunk is still committed with `Wait` ok. -/
theorem C6_eos_commits_open_chunk_witness :
    Event.renameChunk 1 Status.ok ∈ (RunWriter (allOkEnv 500) 5 cursorTwoElems).events ∧
    Wait (RunWriter (allOkEnv 500) 5 cursorTwoElems) = Status.ok :=
  C6_eos_commits_open_chunk (allOkEnv 500) 5 cursorTwoElems 1 (by decide) (by decide)

/-- C7 counterexample: with the first sink close failing, the Scenario-B run
still commits both chunks and `Wait` returns ok — the failing close is the
scope-exit cleanup close of chunk 0 whose error `IgnoreError()` discards;
this refutes that every sink close failure is fatal. -/
theorem C7_cleanup_close_failure_ignored_counterexample :
    Event.sinkCloseCleanup 0 (Status.error "close failed") ∈
      (RunWriter envCloseFail 5 scenarioBCursor).events ∧
    Wait (RunWriter envCloseFail 5 scenarioBCursor) = Status.ok ∧
    commitIndices (RunWriter envCloseFail 5 scenarioBCursor).events = [0, 1] := by
  decide

/-- C7 (amended): every sink append failure and every failure of the explicit
end-of-sequence close is fatal for the stream — the error becomes the
terminal status returned by `Wait` and the chunk being filled is never
committed; only the scope-exit cleanup close has its error ignored. -/
theorem C7_append_and_eos_close_failures_fatal (env : SimEnv) (fuel : Nat)
    (cursor : List PullResult) (i : Nat) (m : String)
    (hfail : (∃ j sz pre, Event.append i j sz pre (Status.error m) ∈
                (RunWriter env fuel cursor).events) ∨
             Event.sinkCloseEos i (Status.error m) ∈ (RunWriter env fuel cursor).events) :
    Wait (RunWriter env fuel cursor) = Status.error m ∧
    Event.renameChunk i Status.ok ∉ (RunWriter env fuel cursor).events := by
  cases hm : env.mkdirStatus with
  | error mm =>
    rw [runWriter_events_fail env fuel cursor mm hm] at hfail
    rcases hfail with ⟨j, sz, pre, hmem⟩ | hmem <;> simp at hmem
  | ok =>
    rw [runWriter_events_ok env fuel cursor hm] at hfail ⊢
    have hfail2 : (∃ j sz pre, Event.append i j sz pre (Status.error m) ∈
        (ChunkLoop env fuel cursor initialState).events) ∨
        Event.sinkCloseEos i (Status.error m) ∈
          (ChunkLoop env fuel cursor initialState).events := by
      rcases hfail with ⟨j, sz, pre, hmem⟩ | hmem
      · rcases List.mem_cons.mp hmem with h | h
        · simp at h
        · exact Or.inl ⟨j, sz, pre, h⟩
      · rcases List.mem_cons.mp hmem with h | h
        · simp at h
        · exact Or.inr h
    have h := chunkLoop_fatal env fuel cursor initialState m i hfail2
    refine ⟨wait_of_loop_error env fuel cursor m hm h.1, fun hr => ?_⟩
    rcases List.mem_cons.mp hr with hr | hr
    · simp at hr
    · exact h.2.2 hr

/-- C7 witness: with the second append failing (`disk full`), the run
terminates with that error and chunk 0 is never committed. -/
theorem C7_append_and_eos_close_failures_fatal_witness :
    Wait (RunWriter envAppendFail 5 cursorTwoElems) = Status.error "disk full" ∧
    Event.renameChunk 0 Status.ok ∉ (RunWriter envAppendFail 5 cursorTwoElems).events :=
  C7_append_and_eos_close_failures_fatal envAppendFail 5 cursorTwoElems 0 "disk full"
    (Or.inl ⟨1, 300, 300, by decide⟩)

/-- C8: commit is atomic with respect to the in-memory counters —
`chunk_index_` is incremented and `chunk_size_bytes_` reset to 0 exactly when
the rename succeeds; on a rename failure the error is returned with both
counters unchanged, the failure is fatal for the whole run (it becomes the
status returned by `Wait`, with no retry), and no chunk index is ever the
target of more than one rename attempt. -/
theorem C8_commit_counters_and_rename_failure (env : SimEnv) (st : SimState)
    (fuel : Nat) (cursor : List PullResult) (i : Nat) (m : String) :
    ((env.renameStatus st.writer.chunk_index).isOk = true →
      (CommitChunk env st).status = Status.ok ∧
      (CommitChunk env st).state.writer.chunk_index = st.writer.chunk_index + 1 ∧
      (CommitChunk env st).state.writer.chunk_size_bytes = 0) ∧
    ((env.renameStatus st.writer.chunk_index).isOk = false →
      (CommitChunk env st).status = env.renameStatus st.writer.chunk_index ∧
      (CommitChunk env st).state.writer = st.writer) ∧
    (Event.renameChunk i (Status.error m) ∈ (RunWriter env fuel cursor).events →
      Wait (RunWriter env fuel cursor) = Status.error m) ∧
    (RunWriter env fuel cursor).events.countP (renameEventOfChunk i) ≤ 1 := by
  refine ⟨?_, ?_, ?_, ?_⟩
  · intro h
    simp only [CommitChunk]
    rw [if_pos h]
    exact ⟨rfl, rfl, rfl⟩
  · intro h
    simp only [CommitChunk]
    rw [if_neg (by simp [h])]
    exact ⟨rfl, rfl⟩
  · intro hmem
    cases hm : env.mkdirStatus with
    | error mm =>
      rw [runWriter_events_fail env fuel cursor mm hm] at hmem
      simp at hmem
    | ok =>
      rw [runWriter_events_ok env fuel cursor hm] at hmem
      rcases List.mem_cons.mp hmem with h | h
      · simp at h
      · exact wait_of_loop_error env fuel cursor m hm
          (chunkLoop_rename_fail env fuel cursor initialState i m h)
  · cases hm : env.mkdirStatus with
    | error mm =>
      rw [runWriter_events_fail env fuel cursor mm hm]
      simp [List.countP, List.countP.go, renameEventOfChunk]
    | ok =>
      rw [runWriter_events_ok env fuel cursor hm, countP_rename_eq_phase_count,
        chunkPhases_cons]
      have h0 : chunkPhases i [Event.mkdir Status.ok] = [] := rfl
      rw [h0, List.nil_append]
      exact (chunkLoop_phases env fuel cursor initialState i).1.count_three_le_one

/-- C8 witness: from the initial state with every rename succeeding,
`CommitChunk` returns ok, advances `chunk_index_` to 1 and resets
`chunk_size_bytes_` to 0. -/
theorem C8_commit_counters_and_rename_failure_witness :
    (CommitChunk (allOkEnv 500) initialState).status = Status.ok ∧
    (CommitChunk (allOkEnv 500) initialState).state.writer.chunk_index = 1 ∧
    (CommitChunk (allOkEnv 500) initialState).state.writer.chunk_size_bytes = 0 :=
  (C8_commit_counters_and_rename_failure (allOkEnv 500) initialState 1 [] 0 "m").1
    (by decide)

/-- C9: on every run, the committed chunk indices are exactly
`0, 1, …, k-1` in that order — no gaps, no repeats, no reordering — and the
appends respect both orders: later appends go to chunk indices that never
decrease and come from strictly later cursor pulls, so commit order matches
the order elements were pulled from the cursor. -/
theorem C9_commit_indices_consecutive_and_pull_ordered (env : SimEnv) (fuel : Nat)
    (cursor : List PullResult) :
    (∃ k, commitIndices (RunWriter env fuel cursor).events = List.range k) ∧
    List.Pairwise (fun a b : Nat × Nat => a.1 ≤ b.1 ∧ a.2 < b.2)
      (appendRecords (RunWriter env fuel cursor).events) := by
  cases hm : env.mkdirStatus with
  | ok =>
    constructor
    · rw [runWriter_events_ok env fuel cursor hm, commitIndices_cons]
      have h0 : commitIndices [Event.mkdir Status.ok] = [] := rfl
      rw [h0, List.nil_append]
      obtain ⟨k, hk1, _⟩ := chunkLoop_commits env fuel cursor initialState
      refine ⟨k, ?_⟩
      rw [hk1]
      exact (List.range_eq_range' k).symm
    · rw [runWriter_events_ok env fuel cursor hm, appendRecords_cons]
      have h0 : appendRecords [Event.mkdir Status.ok] = [] := rfl
      rw [h0, List.nil_append]
      exact (chunkLoop_append_records env fuel cursor initialState).2
  | error m =>
    rw [runWriter_events_fail env fuel cursor m hm]
    exact ⟨⟨0, rfl⟩, List.Pairwise.nil⟩

/-- C10: on every run, the cursor yields end of sequence at most once and
only as the very last pull — `GetNext` is never called again after end of
sequence was reported — and once `end_of_sequence_` is set, both loop guards
fail immediately: the outer loop from a state with the flag set does nothing
at all. -/
theorem C10_end_of_sequence_monotone (env : SimEnv) (fuel : Nat)
    (cursor cursor2 : List PullResult) (s : Status) (ci cs p c : Nat) :
    eosOnlyLast (pullResultsOf (RunWriter env fuel cursor).events) = true ∧
    ChunkLoop env fuel cursor2 ⟨⟨s, true, ci, cs⟩, p, c⟩ =
      { status := Status.ok, state := ⟨⟨s, true, ci, cs⟩, p, c⟩, events := [],
        cursor := cursor2 } := by
  constructor
  · cases hm : env.mkdirStatus with
    | ok =>
      rw [runWriter_events_ok env fuel cursor hm, pullResultsOf_cons]
      have h0 : pullResultsOf [Event.mkdir Status.ok] = [] := rfl
      rw [h0, List.nil_append]
      exact chunkLoop_eos env fuel cursor initialState rfl
    | error m =>
      rw [runWriter_events_fail env fuel cursor m hm]
      rfl
  · exact chunkLoop_eos_noop env fuel cursor2 _ rfl
